import Mathlib

/-!
# external-dns-ingress-migrator

A shallow embedding of the two packages that carry the decision logic of the
migrator, `k8s` (hostname resolution over the ingresses of a cluster) and
`route53` (diff against the zone, batched record creation), followed by the
properties that hold of them.

Conventions of the embedding.

* Go strings are `String`; `strings.Contains` is the infix test on the
  characters (for well-formed UTF-8 text the byte-wise and the character-wise
  test agree).
* A Go `map` is an association list with distinct keys, kept in the order of
  first insertion. `range` over a Go map visits the entries in an unspecified
  order; the order is an explicit parameter `visit`, constrained in the
  theorems to be a permutation of the entries.
* Calls to the outside world (the Kubernetes listing, the Route53 listing and
  the Route53 mutation call) are parameters of the model; what the code does
  with them is recorded in the result (the requests submitted, the pauses).
* Logging is not modelled.
-/

set_option autoImplicit false

namespace registry

/-- The `registry.Data` record, one binding of a hostname to its ingress. -/
structure Data where
  Name : String
  Namespace : String
  Hostname : String
deriving DecidableEq, Repr

end registry

namespace k8s

/-- The `LoadBalancerIngress` entry of the Kubernetes API (the fields read here). -/
structure LoadBalancerIngress where
  IP : String
  Hostname : String
deriving DecidableEq, Repr

/-- The `LoadBalancerStatus` record of the Kubernetes API. -/
structure LoadBalancerStatus where
  Ingress : List LoadBalancerIngress
deriving DecidableEq, Repr

/-- The `IngressStatus` record of the Kubernetes API. -/
structure IngressStatus where
  LoadBalancer : LoadBalancerStatus
deriving DecidableEq, Repr

/-- The `IngressRule` record of the Kubernetes API (the field read here). -/
structure IngressRule where
  Host : String
deriving DecidableEq, Repr

/-- The `IngressSpec` record of the Kubernetes API (the field read here). -/
structure IngressSpec where
  Rules : List IngressRule
deriving DecidableEq, Repr

/-- The `v1beta1.Ingress` object (the fields read here). -/
structure Ingress where
  Name : String
  Namespace : String
  Spec : IngressSpec
  Status : IngressStatus
deriving DecidableEq, Repr

/-- The Go call `strings.Contains(s, substr)`. -/
def stringsContains (s substr : String) : Bool :=
  decide (substr.data <:+: s.data)

/-- The Go type `map[string][]v1beta1.Ingress`, entries in order of first insertion. -/
abbrev HostnameIngresses := List (String × List Ingress)

/-- The statement `m[host] = append(m[host], ingress)`. -/
def appendAt : HostnameIngresses → String → Ingress → HostnameIngresses
  | [], host, ingress => [(host, [ingress])]
  | (k, v) :: rest, host, ingress =>
    if k = host then (k, v ++ [ingress]) :: rest
    else (k, v) :: appendAt rest host ingress

/-- The inner loop body of the first loop (lines 73-77). -/
def fileRule (context : String) (ingress : Ingress) (m : HostnameIngresses)
    (rule : IngressRule) : HostnameIngresses :=
  if !stringsContains rule.Host context then m else appendAt m rule.Host ingress

/-- The first loop of `getValidUniqueHostnameIngresses` (lines 71-79): every rule
whose host contains the context files its ingress under that host. -/
def collectHostnameIngresses (context : String) (ingresses : List Ingress) :
    HostnameIngresses :=
  ingresses.foldl
    (fun m ingress => ingress.Spec.Rules.foldl (fileRule context ingress) m)
    []

/-- The check of lines 92-98 on one entry of `ingressStatus`: with more than one
target, some target differs from the first one. -/
def targetsDiffer : List String → Bool
  | [] => false
  | first :: rest =>
    decide ((first :: rest).length > 1) && (first :: rest).any (fun target => target != first)

/-- The body of the second loop of `getValidUniqueHostnameIngresses` (lines 81-111)
for one entry: the ingress appended for this hostname, if any. An empty entry
cannot occur (the Go code would fail on `ingresses[0]`). -/
def selectIngress (ingresses : List Ingress) : Option Ingress :=
  match ingresses with
  | [] => none
  | selectedIngress :: _ =>
    if ingresses.length > 1 then
      let hostnames := ingresses.flatMap
        (fun ingress => ingress.Status.LoadBalancer.Ingress.map (fun lb => lb.Hostname))
      let ips := ingresses.flatMap
        (fun ingress => ingress.Status.LoadBalancer.Ingress.map (fun lb => lb.IP))
      let invalidIngress := targetsDiffer hostnames || targetsDiffer ips
      if invalidIngress then none else some selectedIngress
    else some selectedIngress

/-- The function `getValidUniqueHostnameIngresses`; `visit` is the order in which
`range` goes through the map. -/
def getValidUniqueHostnameIngresses (context : String)
    (visit : HostnameIngresses → HostnameIngresses) (ingresses : List Ingress) :
    List Ingress :=
  (visit (collectHostnameIngresses context ingresses)).filterMap
    (fun entry => selectIngress entry.2)

/-- The loop of `GetRegistryData` (lines 54-63) over the selected ingresses. -/
def registryDataOf (selected : List Ingress) : List registry.Data :=
  selected.flatMap
    (fun ingress => ingress.Spec.Rules.map
      (fun rule => { Name := ingress.Name, Namespace := ingress.Namespace, Hostname := rule.Host }))

/-- The method `GetRegistryData`; `listed` is the answer of the cluster to the
listing of all ingresses. -/
def GetRegistryData (context : String) (visit : HostnameIngresses → HostnameIngresses)
    (listed : Except String (List Ingress)) : List registry.Data × Option String :=
  match listed with
  | .error err => ([], some ("failed to get ingresses: " ++ err))
  | .ok items => (registryDataOf (getValidUniqueHostnameIngresses context visit items), none)

/-- An ingress with the given rule hosts and load-balancer entries `(IP, Hostname)`. -/
def mkIngress (name ns : String) (hosts : List String) (lbs : List (String × String)) :
    Ingress :=
  { Name := name, Namespace := ns,
    Spec := { Rules := hosts.map (fun h => { Host := h }) },
    Status := { LoadBalancer := { Ingress := lbs.map (fun t => { IP := t.1, Hostname := t.2 }) } } }

/-- The ingresses filed under `k` in the map (`m[k]`, the nil slice when absent). -/
def valuesAt (m : HostnameIngresses) (k : String) : List Ingress :=
  (m.lookup k).getD []

/-- How often `ingress` is filed under `k`: once for each of its rules with host
`k`, when `k` contains the context. -/
def filings (context k : String) (ingress : Ingress) : Nat :=
  if stringsContains k context then (ingress.Spec.Rules.filter (fun r => r.Host = k)).length
  else 0

/-- The bindings with hostname `h` that one entry of the map contributes. -/
def bindingsFor (h : String) (entry : String × List Ingress) : List registry.Data :=
  match selectIngress entry.2 with
  | none => []
  | some ingress => (registryDataOf [ingress]).filter (fun d => d.Hostname = h)

/-- The routing targets an ingress reports: the IPs and hostnames of its
load-balancer entries that are set. -/
def targets (ingress : Ingress) : List String :=
  (ingress.Status.LoadBalancer.Ingress.flatMap (fun lb => [lb.IP, lb.Hostname])).filter
    (fun t => t ≠ "")

/-- Two ingresses claim `foo.example.com` with different addresses; the first one
also has a rule for `bar.example.com`. -/
def conflictingIngresses : List Ingress :=
  [mkIngress "a" "ns1" ["foo.example.com", "bar.example.com"] [("1.1.1.1", "")],
   mkIngress "b" "ns2" ["foo.example.com"] [("2.2.2.2", "")]]

/-- One ingress with a rule inside the domain and a rule outside of it. -/
def mixedDomainIngresses : List Ingress :=
  [mkIngress "a" "ns1" ["foo.example.com", "bar.other.org"] [("1.1.1.1", "")]]

/-- Two ingresses claim `foo.example.com`, both behind the same two addresses. -/
def twoAddressIngresses : List Ingress :=
  [mkIngress "a" "ns1" ["foo.example.com"] [("1.1.1.1", ""), ("2.2.2.2", "")],
   mkIngress "b" "ns2" ["foo.example.com"] [("1.1.1.1", ""), ("2.2.2.2", "")]]

end k8s

namespace route53

/-- The `ResourceRecord` of the Route53 API. -/
structure ResourceRecord where
  Value : String
deriving DecidableEq, Repr

/-- The `ResourceRecordSet` of the Route53 API (the fields written and read here). -/
structure ResourceRecordSet where
  Name : String
  Type_ : String
  TTL : Int
  ResourceRecords : List ResourceRecord
deriving DecidableEq, Repr

/-- The `Change` of the Route53 API. -/
structure Change where
  Action : String
  ResourceRecordSet : ResourceRecordSet
deriving DecidableEq, Repr

/-- The `ChangeResourceRecordSetsInput` of the Route53 API, with the changes of its
`ChangeBatch`. -/
structure ChangeResourceRecordSetsInput where
  HostedZoneId : String
  Changes : List Change
deriving DecidableEq, Repr

/-- The `ListResourceRecordSetsOutput` of the Route53 API: one page of a listing. -/
structure ListResourceRecordSetsOutput where
  ResourceRecordSets : List ResourceRecordSet
deriving DecidableEq, Repr

/-- What the paginated listing of a zone has to offer: the pages the service
delivers one after the other, and the error of the request after them, if the
listing breaks off there. -/
structure Listing where
  pages : List ListResourceRecordSetsOutput
  err : Option String
deriving DecidableEq, Repr

/-- The Route53 client as the code uses it. `ChangeResourceRecordSets n input` is
the answer of the service to the request `input` when it is invocation number `n`
of the run (counted from 0): `none` on success, the error otherwise. -/
structure Client where
  listing : Listing
  ChangeResourceRecordSets : Nat → ChangeResourceRecordSetsInput → Option String

/-- The receiver `route53` of the methods: the configuration and the client. -/
structure Route53 where
  dryRun : Bool
  zone : String
  changeBatchSize : Int
  changeBatchInterval : Int
  externalDNSOwner : String
  externalDNSPrefix : String
  client : Client

/-- The Go type `map[string]*ResourceRecordSet`. -/
abbrev RecordSets := List (String × ResourceRecordSet)

/-- The statement `rrsets[name] = entry`. -/
def setAt : RecordSets → String → ResourceRecordSet → RecordSets
  | [], name, entry => [(name, entry)]
  | (k, v) :: rest, name, entry =>
    if k = name then (k, entry) :: rest else (k, v) :: setAt rest name entry

/-- The SDK method `ListResourceRecordSetsPages` (not part of this repository),
by its documented contract: `fn` is called with every page in turn, the paging
stops when `fn` answers `false`, and the error returned is that of the listing
request, none when the paging was stopped by `fn`. The state `σ` stands for the
variables the closure `fn` captures. -/
def ListResourceRecordSetsPages {σ : Type} (listing : Listing)
    (fn : σ → ListResourceRecordSetsOutput → Bool → σ × Bool) : List ListResourceRecordSetsOutput →
    σ → σ × Option String
  | [], s => (s, listing.err)
  | page :: rest, s =>
    let lastPage := rest.isEmpty && listing.err.isNone
    let (s1, more) := fn s page lastPage
    if more then ListResourceRecordSetsPages listing fn rest s1 else (s1, none)

/-- The closure handed to `ListResourceRecordSetsPages` by `getRecordSets`
(lines 98-105); the captured variables are `pageNum` and `rrsets`. -/
def recordPage (s : Nat × RecordSets) (page : ListResourceRecordSetsOutput) (_lastPage : Bool) :
    (Nat × RecordSets) × Bool :=
  let pageNum := s.1 + 1
  let rrsets := page.ResourceRecordSets.foldl (fun m entry => setAt m entry.Name entry) s.2
  ((pageNum, rrsets), decide (pageNum ≤ 30))

/-- The method `getRecordSets`. The error it returns wraps the error of the
listing; the wrapped error stands for it here (the message text, which prints
the zone pointer, is not modelled). -/
def getRecordSets (r : Route53) : RecordSets × Option String :=
  let (s, err) :=
    ListResourceRecordSetsPages r.client.listing recordPage r.client.listing.pages (0, [])
  match err with
  | some e => (s.2, some e)
  | none => (s.2, none)

/-- The Go type `map[*ResourceRecordSet]string`. The keys are fresh pointers, so no
two entries collide; the entries are kept in the order `range` goes through them. -/
abbrev RrsetAction := List (ResourceRecordSet × String)

/-- The record value built by `fmt.Sprintf` at lines 70-71. -/
def heritageValue (owner : String) (d : registry.Data) : String :=
  "\"heritage=external-dns,external-dns/owner=" ++ owner ++
    ",external-dns/resource=ingress/" ++ d.Namespace ++ "/" ++ d.Name ++ "\""

/-- The loop of `CreateRegistry` (lines 57-84) that builds `rrsetGroups` from the
registry data and the existing record sets. -/
def buildRrsetGroups (r : Route53) (existingRecordSets : RecordSets)
    (registryData : List registry.Data) : List (List RrsetAction) :=
  registryData.foldl
    (fun rrsetGroups d =>
      let name := r.externalDNSPrefix ++ d.Hostname ++ "."
      match existingRecordSets.lookup name with
      | some _ => rrsetGroups
      | none =>
        let rrsetAction : RrsetAction :=
          [({ Name := name, Type_ := "TXT", TTL := 300,
              ResourceRecords := [{ Value := heritageValue r.externalDNSOwner d }] }, "CREATE")]
        rrsetGroups ++ [[rrsetAction]])
    []

/-- The local variables of `changeRecordSets` together with what the run has done
so far: the requests handed to `ChangeResourceRecordSets` with their answers, and
the pauses taken. -/
structure LoopState where
  err : Option String
  recordHostnames : List String
  failedHostnames : List String
  counter : Nat
  changes : List Change
  calls : List (ChangeResourceRecordSetsInput × Option String)
  sleeps : List Int
deriving DecidableEq, Repr

/-- Lines 126-135: the counter moves on and the changes of one group join the
batch under construction, each with the action it is mapped to. (`CreateRegistry`
only builds groups of one map with one entry, so neither the order of `range`
over a map nor the sharing of the loop variable `action` comes into play.) -/
def addGroup (st : LoopState) (rrsetGroup : List RrsetAction) : LoopState :=
  rrsetGroup.foldl
    (fun st rrsets =>
      rrsets.foldl
        (fun st entry =>
          { st with
            changes := st.changes ++ [{ Action := entry.2, ResourceRecordSet := entry.1 }],
            recordHostnames := st.recordHostnames ++ [entry.1.Name] })
        st)
    { st with counter := st.counter + 1 }

/-- Lines 156-161: the batch under construction is emptied and, unless this was
the last group, the run pauses. -/
def resetBatch (r : Route53) (total : Nat) (st : LoopState) : LoopState :=
  let st1 := { st with changes := [], recordHostnames := [] }
  if st1.counter < total then { st1 with sleeps := st1.sleeps ++ [r.changeBatchInterval] }
  else st1

/-- Lines 137-162: what happens to a batch when the counter says it is due. -/
def flushBatch (r : Route53) (total : Nat) (st : LoopState) : LoopState :=
  if r.dryRun then resetBatch r total st
  else
    let batchRrsets : ChangeResourceRecordSetsInput :=
      { HostedZoneId := r.zone, Changes := st.changes }
    let err := r.client.ChangeResourceRecordSets st.calls.length batchRrsets
    let st1 := { st with err := err, calls := st.calls ++ [(batchRrsets, err)] }
    match err with
    | some _ => { st1 with failedHostnames := st1.failedHostnames ++ st1.recordHostnames }
    | none => resetBatch r total st1

/-- One turn of the loop of `changeRecordSets` for a batch size other than 0. -/
def stepGroup (r : Route53) (total : Nat) (st : LoopState) (rrsetGroup : List RrsetAction) :
    LoopState :=
  let st1 := addGroup st rrsetGroup
  if (Int.tmod (st1.counter : Int) r.changeBatchSize = 0) ∨ st1.counter = total then
    flushBatch r total st1
  else st1

/-- One turn of the loop of `changeRecordSets` (lines 125-163); `none` is the
run-time failure of `counter % 0`. -/
def loopBody (r : Route53) (total : Nat) (st : LoopState) (rrsetGroup : List RrsetAction) :
    Option LoopState :=
  if r.changeBatchSize = 0 then none else some (stepGroup r total st rrsetGroup)

/-- The error value of `changeRecordSets`: the failed hostnames and the last
answer of the service, as printed into the message. -/
structure ChangeError where
  failedHostnames : List String
  err : Option String
deriving DecidableEq, Repr

/-- What a run of `changeRecordSets` leaves behind: the requests handed to the
service with their answers, the pauses, and the returned error (`none` is `nil`). -/
structure ChangeResult where
  calls : List (ChangeResourceRecordSetsInput × Option String)
  sleeps : List Int
  ret : Option ChangeError
deriving DecidableEq, Repr

/-- The state in which the loop of `changeRecordSets` starts. -/
def initialState : LoopState :=
  { err := none, recordHostnames := [], failedHostnames := [], counter := 0,
    changes := [], calls := [], sleeps := [] }

/-- Lines 165-168: the answer of `changeRecordSets` once the loop is over. -/
def finish (st : LoopState) : ChangeResult :=
  { calls := st.calls, sleeps := st.sleeps,
    ret := if st.failedHostnames.length > 0 then
        some { failedHostnames := st.failedHostnames, err := st.err }
      else none }

/-- The method `changeRecordSets`; `none` is a run-time failure. -/
def changeRecordSets (r : Route53) (rrsetGroups : List (List RrsetAction)) :
    Option ChangeResult :=
  (rrsetGroups.foldlM (loopBody r rrsetGroups.length) initialState).map finish

/-- The error value of `CreateRegistry`. -/
inductive RegistryError where
  | listFailed (zone : String) (err : String)
  | changeFailed (e : ChangeError)
deriving DecidableEq, Repr

/-- What a run of `CreateRegistry` leaves behind. -/
structure RegistryResult where
  calls : List (ChangeResourceRecordSetsInput × Option String)
  sleeps : List Int
  ret : Option RegistryError
deriving DecidableEq, Repr

/-- The method `CreateRegistry`; `none` is a run-time failure. -/
def CreateRegistry (r : Route53) (registryData : List registry.Data) : Option RegistryResult :=
  match getRecordSets r with
  | (_, some err) =>
    some { calls := [], sleeps := [], ret := some (.listFailed r.zone err) }
  | (existingRecordSets, none) =>
    let rrsetGroups := buildRrsetGroups r existingRecordSets registryData
    if rrsetGroups.length = 0 then some { calls := [], sleeps := [], ret := none }
    else
      (changeRecordSets r rrsetGroups).map
        (fun res => { calls := res.calls, sleeps := res.sleeps,
                      ret := res.ret.map RegistryError.changeFailed })

/-- The group `CreateRegistry` builds for one pending change. -/
def groupOf (p : ResourceRecordSet × String) : List RrsetAction := [[p]]

/-- The change submitted for one pending change. -/
def changeOf (p : ResourceRecordSet × String) : Change :=
  { Action := p.2, ResourceRecordSet := p.1 }

/-- A TXT record set to create under the given name, as a pending change. -/
def pendingTxt (name : String) : ResourceRecordSet × String :=
  ({ Name := name, Type_ := "TXT", TTL := 300, ResourceRecords := [{ Value := "v" }] }, "CREATE")

/-- A client whose listing is empty and whose mutation call fails exactly at the
invocations (counted from 0) listed in `failing`. -/
def clientFailingAt (failing : List Nat) : Client :=
  { listing := { pages := [], err := none },
    ChangeResourceRecordSets := fun n _ => if n ∈ failing then some "throttled" else none }

/-- A configuration over the given client. -/
def mkRoute53 (dryRun : Bool) (batchSize : Int) (client : Client) : Route53 :=
  { dryRun := dryRun, zone := "Z1", changeBatchSize := batchSize, changeBatchInterval := 60,
    externalDNSOwner := "me", externalDNSPrefix := "", client := client }

/-- The record name `CreateRegistry` computes for a binding (line 59). -/
def recordName (r : Route53) (d : registry.Data) : String :=
  r.externalDNSPrefix ++ d.Hostname ++ "."

/-- The pending change `CreateRegistry` builds for a binding (lines 70-81). -/
def createTxt (r : Route53) (d : registry.Data) : ResourceRecordSet × String :=
  ({ Name := recordName r d, Type_ := "TXT", TTL := 300,
     ResourceRecords := [{ Value := heritageValue r.externalDNSOwner d }] }, "CREATE")

/-- The test of line 137. -/
def due (r : Route53) (total counter : Nat) : Prop :=
  (Int.tmod (counter : Int) r.changeBatchSize = 0) ∨ counter = total

/-- The state after the changes `ps` have joined the batch under construction. -/
def gathered (st : LoopState) (ps : List (ResourceRecordSet × String)) : LoopState :=
  { st with
    counter := st.counter + ps.length,
    changes := st.changes ++ ps.map changeOf,
    recordHostnames := st.recordHostnames ++ ps.map (fun p => p.1.Name) }

/-- Batch number `j` (counted from 0) of the pending changes for batch size `b`. -/
def batchAt (b : Nat) (pending : List (ResourceRecordSet × String)) (j : Nat) :
    List (ResourceRecordSet × String) :=
  (pending.drop (j * b)).take b

/-- The record names of a list of pending changes. -/
def namesOf (ps : List (ResourceRecordSet × String)) : List String :=
  ps.map (fun p => p.1.Name)

/-- The state of the loop after `j` batches when only invocation `k0` of the
mutation call fails. -/
def PartialInv (r : Route53) (b : Nat) (pending : List (ResourceRecordSet × String))
    (k0 j : Nat) (st : LoopState) : Prop :=
  st.counter = min (j * b) pending.length ∧
  st.calls.length = j ∧
  st.failedHostnames = (if k0 < j then namesOf (batchAt b pending k0) else []) ∧
  st.changes = (if j = k0 + 1 then (batchAt b pending k0).map changeOf else []) ∧
  st.recordHostnames = (if j = k0 + 1 then namesOf (batchAt b pending k0) else []) ∧
  ∀ i, i < j → i ≠ k0 →
    st.calls[i]? = some
      ({ HostedZoneId := r.zone,
         Changes := (if i = k0 + 1 then (batchAt b pending k0).map changeOf else []) ++
           (batchAt b pending i).map changeOf }, none)

/-- The record sets after the entries of `pages` have been stored one by one. -/
def recorded (rrsets : RecordSets) (pages : List ListResourceRecordSetsOutput) : RecordSets :=
  pages.foldl
    (fun m page => page.ResourceRecordSets.foldl (fun m entry => setAt m entry.Name entry) m)
    rrsets

/-- An address record of a zone listing. -/
def zoneRecord (name : String) : ResourceRecordSet :=
  { Name := name, Type_ := "A", TTL := 300, ResourceRecords := [{ Value := "10.0.0.1" }] }

/-- A client whose listing delivers the given pages of records without error and
whose mutation call always succeeds. -/
def clientListing (pages : List (List ResourceRecordSet)) : Client :=
  { listing := { pages := pages.map (fun p => { ResourceRecordSets := p }), err := none },
    ChangeResourceRecordSets := fun _ _ => none }

/-- The name of the record on page `i + 1` of `longListing`. -/
def longListingName (i : Nat) : String :=
  String.mk (List.replicate (i + 1) 'a') ++ ".example.com."

/-- A listing of 32 pages with one record each. -/
def longListing : Listing :=
  { pages := (List.range 32).map (fun i => { ResourceRecordSets := [zoneRecord (longListingName i)] }),
    err := none }

/-- A client whose listing is empty and whose mutation call rejects every request
that holds a change of the record `name`, whatever the invocation. -/
def clientRejecting (name : String) : Client :=
  { listing := { pages := [], err := none },
    ChangeResourceRecordSets := fun _ input =>
      if input.Changes.any (fun ch => ch.ResourceRecordSet.Name = name) then some "invalid"
      else none }

/-- The record names a zone lists, over all its pages. -/
def zoneNames (listing : Listing) : List String :=
  listing.pages.flatMap (fun page => page.ResourceRecordSets.map (fun entry => entry.Name))

/-- What holds of the loop of `changeRecordSets` outside a dry run once the
changes `done` have gone through it: the hostnames kept are those of the batch
under construction, and as long as nothing has been recorded as failed every
change is in the batch under construction or in an accepted request, the batch
being empty when the last group is through. -/
def Settled (total : Nat) (st : LoopState) (done : List (ResourceRecordSet × String)) : Prop :=
  st.recordHostnames = st.changes.map (fun ch => ch.ResourceRecordSet.Name) ∧
  st.counter = done.length ∧
  (st.failedHostnames = [] → ∀ p ∈ done,
    changeOf p ∈ st.changes ∨ ∃ c ∈ st.calls, c.2 = none ∧ changeOf p ∈ c.1.Changes) ∧
  (st.failedHostnames = [] → done.length = total → done ≠ [] → st.changes = [])

/-- The hostname whose record is the one on page 32 of `longListing`. -/
def lateHostname : String :=
  String.mk (List.replicate 32 'a') ++ ".example.com"

/-- The zone of `longListing` before the record of page 32 exists: 31 pages. -/
def clientBeforeLate : Client :=
  clientListing ((List.range 31).map (fun i => [zoneRecord (longListingName i)]))

/-- The zone of `longListing`, with a mutation call that always succeeds. -/
def clientAfterLate : Client :=
  { listing := longListing, ChangeResourceRecordSets := fun _ _ => none }

end route53

/-! ## Association lists -/

section assoc

variable {V : Type}

theorem lookup_some_mem (m : List (String × V)) (k : String) (v : V)
    (h : m.lookup k = some v) : (k, v) ∈ m := by
  induction m with
  | nil => simp at h
  | cons e rest ih =>
    obtain ⟨k0, v0⟩ := e
    by_cases hk : k = k0
    · subst hk
      simp [List.lookup] at h
      simp [h]
    · have hb : (k == k0) = false := by simpa using hk
      simp [List.lookup, hb] at h
      exact List.mem_cons_of_mem _ (ih h)

theorem mem_lookup_of_nodup (m : List (String × V)) (k : String) (v : V)
    (hnd : (m.map Prod.fst).Nodup) (h : (k, v) ∈ m) : m.lookup k = some v := by
  induction m with
  | nil => simp at h
  | cons e rest ih =>
    obtain ⟨k0, v0⟩ := e
    simp only [List.map_cons, List.nodup_cons] at hnd
    rcases List.mem_cons.mp h with heq | hrest
    · injection heq with h1 h2
      subst h1; subst h2
      simp [List.lookup]
    · have hne : k ≠ k0 := by
        intro hk
        subst hk
        exact hnd.1 (List.mem_map.mpr ⟨(k, v), hrest, rfl⟩)
      have hb : (k == k0) = false := by simpa using hne
      simp [List.lookup, hb, ih hnd.2 hrest]

theorem flatMap_single_key {β : Type} (l : List (String × V)) (e0 : String × V)
    (f : String × V → List β) (hnd : (l.map Prod.fst).Nodup) (hmem : e0 ∈ l)
    (hf : ∀ e ∈ l, e.1 ≠ e0.1 → f e = []) : l.flatMap f = f e0 := by
  induction l with
  | nil => simp at hmem
  | cons e rest ih =>
    simp only [List.map_cons, List.nodup_cons] at hnd
    simp only [List.flatMap_cons]
    rcases List.mem_cons.mp hmem with heq | hrest
    · subst heq
      have hnil : rest.flatMap f = [] := by
        rw [List.flatMap_eq_nil_iff]
        intro x hx
        apply hf x (List.mem_cons_of_mem _ hx)
        intro hk
        exact hnd.1 (List.mem_map.mpr ⟨x, hx, hk⟩)
      simp [hnil]
    · have hne : e.1 ≠ e0.1 := by
        intro hk
        exact hnd.1 (List.mem_map.mpr ⟨e0, hrest, hk.symm⟩)
      rw [hf e (List.mem_cons_self _ _) hne,
        ih hnd.2 hrest (fun x hx => hf x (List.mem_cons_of_mem _ hx))]
      simp

end assoc

namespace k8s

theorem lookup_appendAt (m : HostnameIngresses) (host k : String) (ingress : Ingress) :
    (appendAt m host ingress).lookup k =
      if k = host then some (valuesAt m host ++ [ingress]) else m.lookup k := by
  induction m with
  | nil =>
    by_cases hk : k = host
    · subst hk; simp [appendAt, valuesAt, List.lookup]
    · have hb : (k == host) = false := by simpa using hk
      simp [appendAt, List.lookup, hb, hk]
  | cons e rest ih =>
    obtain ⟨k0, v0⟩ := e
    by_cases h0 : k0 = host
    · subst h0
      by_cases hk : k = k0
      · subst hk; simp [appendAt, valuesAt, List.lookup]
      · have hb : (k == k0) = false := by simpa using hk
        simp [appendAt, List.lookup, hb, hk]
    · by_cases hk : k = k0
      · subst hk
        simp [appendAt, h0, List.lookup]
      · have hb : (k == k0) = false := by simpa using hk
        have hh : (host == k0) = false := by simpa using (fun h => h0 h.symm)
        simp [appendAt, h0, List.lookup, hb, ih, valuesAt, hh]

theorem valuesAt_appendAt (m : HostnameIngresses) (host k : String) (ingress : Ingress) :
    valuesAt (appendAt m host ingress) k =
      if k = host then valuesAt m k ++ [ingress] else valuesAt m k := by
  unfold valuesAt
  rw [lookup_appendAt]
  by_cases hk : k = host
  · subst hk; simp [valuesAt]
  · simp [hk]

theorem keys_appendAt (m : HostnameIngresses) (host : String) (ingress : Ingress) :
    (appendAt m host ingress).map Prod.fst =
      if host ∈ m.map Prod.fst then m.map Prod.fst else m.map Prod.fst ++ [host] := by
  induction m with
  | nil => simp [appendAt]
  | cons e rest ih =>
    obtain ⟨k0, v0⟩ := e
    by_cases h0 : k0 = host
    · subst h0; simp [appendAt]
    · have h1 : ¬ host = k0 := fun h => h0 h.symm
      simp only [appendAt, h0, if_false, List.map_cons, ih, List.mem_cons, h1, false_or]
      split <;> simp

theorem nodup_keys_appendAt (m : HostnameIngresses) (host : String) (ingress : Ingress)
    (hnd : (m.map Prod.fst).Nodup) : ((appendAt m host ingress).map Prod.fst).Nodup := by
  rw [keys_appendAt]
  split
  · exact hnd
  · rename_i hnot
    rw [List.nodup_append]
    refine ⟨hnd, List.nodup_singleton _, ?_⟩
    intro a ha hb
    simp only [List.mem_singleton] at hb
    subst hb
    exact hnot ha

theorem collectHostnameIngresses_eq (context : String) (ingresses : List Ingress) :
    collectHostnameIngresses context ingresses =
      ingresses.foldl (fun m ingress => ingress.Spec.Rules.foldl (fileRule context ingress) m) [] :=
  rfl

theorem nodup_keys_rules (context : String) (ingress : Ingress) (rules : List IngressRule)
    (m : HostnameIngresses) (hnd : (m.map Prod.fst).Nodup) :
    ((rules.foldl (fileRule context ingress) m).map Prod.fst).Nodup := by
  induction rules generalizing m with
  | nil => simpa using hnd
  | cons r rest ih =>
    simp only [List.foldl_cons]
    apply ih
    unfold fileRule
    split
    · exact hnd
    · exact nodup_keys_appendAt _ _ _ hnd

theorem nodup_keys_fold (context : String) (ingresses : List Ingress) (m : HostnameIngresses)
    (hnd : (m.map Prod.fst).Nodup) :
    ((ingresses.foldl
      (fun m ingress => ingress.Spec.Rules.foldl (fileRule context ingress) m) m).map
        Prod.fst).Nodup := by
  induction ingresses generalizing m with
  | nil => simpa using hnd
  | cons i rest ih =>
    simp only [List.foldl_cons]
    exact ih _ (nodup_keys_rules context i _ m hnd)

theorem nodup_keys_collect (context : String) (ingresses : List Ingress) :
    ((collectHostnameIngresses context ingresses).map Prod.fst).Nodup := by
  rw [collectHostnameIngresses_eq]
  exact nodup_keys_fold context ingresses [] (by simp)

theorem valuesAt_rules (context k : String) (ingress : Ingress) (rules : List IngressRule)
    (m : HostnameIngresses) :
    valuesAt (rules.foldl (fileRule context ingress) m) k =
      valuesAt m k ++ List.replicate
        (if stringsContains k context then (rules.filter (fun r => r.Host = k)).length else 0)
        ingress := by
  induction rules generalizing m with
  | nil => simp
  | cons r rest ih =>
    simp only [List.foldl_cons]
    rw [ih]
    unfold fileRule
    by_cases hr : r.Host = k
    · subst hr
      by_cases hc : stringsContains r.Host context = true
      · simp [hc, valuesAt_appendAt, List.replicate_succ]
      · simp [hc]
    · have hk : ¬ k = r.Host := fun h => hr h.symm
      by_cases hc : stringsContains r.Host context = true
      · simp [hc, valuesAt_appendAt, hr, hk]
      · simp [hc, hr]

theorem valuesAt_fold (context k : String) (ingresses : List Ingress) (m : HostnameIngresses) :
    valuesAt (ingresses.foldl
      (fun m ingress => ingress.Spec.Rules.foldl (fileRule context ingress) m) m) k =
      valuesAt m k ++ ingresses.flatMap (fun i => List.replicate (filings context k i) i) := by
  induction ingresses generalizing m with
  | nil => simp
  | cons i rest ih =>
    simp only [List.foldl_cons, List.flatMap_cons]
    rw [ih, valuesAt_rules]
    simp [filings, List.append_assoc]

/-- The entry of the collected map under `k` lists the ingresses in the order of
the listing, each once for every rule of it with host `k`. -/
theorem valuesAt_collect (context k : String) (ingresses : List Ingress) :
    valuesAt (collectHostnameIngresses context ingresses) k =
      ingresses.flatMap (fun i => List.replicate (filings context k i) i) := by
  rw [collectHostnameIngresses_eq, valuesAt_fold]
  simp [valuesAt]

theorem entry_eq_valuesAt (context : String) (ingresses : List Ingress) (e : String × List Ingress)
    (he : e ∈ collectHostnameIngresses context ingresses) :
    e.2 = ingresses.flatMap (fun i => List.replicate (filings context e.1 i) i) := by
  have h1 := mem_lookup_of_nodup _ e.1 e.2 (nodup_keys_collect context ingresses) he
  rw [← valuesAt_collect]
  simp [valuesAt, h1]

theorem targetsDiffer_of_all_eq (targets : List String) (c : String)
    (h : ∀ t ∈ targets, t = c) : targetsDiffer targets = false := by
  cases targets with
  | nil => rfl
  | cons first rest =>
    have hf : first = c := h first (List.mem_cons_self _ _)
    have hall : (first :: rest).any (fun target => target != first) = false := by
      rw [List.any_eq_false]
      intro x hx
      simp [h x hx, hf]
    simp only [targetsDiffer, hall, Bool.and_false]

theorem selectIngress_mem (ingresses : List Ingress) (x : Ingress)
    (h : selectIngress ingresses = some x) : x ∈ ingresses := by
  cases ingresses with
  | nil => simp [selectIngress] at h
  | cons first rest =>
    simp only [selectIngress] at h
    split at h
    · split at h
      · simp at h
      · injection h with h; subst h; exact List.mem_cons_self _ _
    · injection h with h; subst h; exact List.mem_cons_self _ _

theorem selectIngress_consistent (first : Ingress) (rest : List Ingress) (ip hn : String)
    (h : ∀ i ∈ first :: rest, ∀ lb ∈ i.Status.LoadBalancer.Ingress, lb.IP = ip ∧ lb.Hostname = hn) :
    selectIngress (first :: rest) = some first := by
  have h1 : targetsDiffer ((first :: rest).flatMap
      (fun ingress => ingress.Status.LoadBalancer.Ingress.map (fun lb => lb.Hostname))) = false := by
    apply targetsDiffer_of_all_eq _ hn
    intro t ht
    obtain ⟨i, hi, hti⟩ := List.mem_flatMap.mp ht
    obtain ⟨lb, hlb, rfl⟩ := List.mem_map.mp hti
    exact (h i hi lb hlb).2
  have h2 : targetsDiffer ((first :: rest).flatMap
      (fun ingress => ingress.Status.LoadBalancer.Ingress.map (fun lb => lb.IP))) = false := by
    apply targetsDiffer_of_all_eq _ ip
    intro t ht
    obtain ⟨i, hi, hti⟩ := List.mem_flatMap.mp ht
    obtain ⟨lb, hlb, rfl⟩ := List.mem_map.mp hti
    exact (h i hi lb hlb).1
  simp only [selectIngress, h1, h2]
  simp

theorem registryDataOf_cons (i : Ingress) (rest : List Ingress) :
    registryDataOf (i :: rest) = registryDataOf [i] ++ registryDataOf rest := by
  simp [registryDataOf]

theorem filter_registryData (h : String) (entries : HostnameIngresses) :
    (registryDataOf (entries.filterMap (fun entry => selectIngress entry.2))).filter
      (fun d => d.Hostname = h) = entries.flatMap (bindingsFor h) := by
  induction entries with
  | nil => simp [registryDataOf]
  | cons e rest ih =>
    simp only [List.flatMap_cons, List.filterMap_cons]
    cases hsel : selectIngress e.2 with
    | none => simp [bindingsFor, hsel, ih]
    | some x =>
      simp only [bindingsFor, hsel]
      rw [registryDataOf_cons, List.filter_append, ih]

theorem registryData_single (i : Ingress) (h : String) :
    (registryDataOf [i]).filter (fun d => d.Hostname = h) =
      List.replicate (i.Spec.Rules.filter (fun r => r.Host = h)).length
        { Name := i.Name, Namespace := i.Namespace, Hostname := h } := by
  simp only [registryDataOf, List.flatMap_cons, List.flatMap_nil, List.append_nil]
  induction i.Spec.Rules with
  | nil => simp
  | cons r rest ih =>
    by_cases hr : r.Host = h
    · subst hr; simp [List.replicate_succ, ih]
    · simp [hr, ih]

theorem registryData_none (i : Ingress) (h : String)
    (hno : ∀ rule ∈ i.Spec.Rules, rule.Host ≠ h) :
    (registryDataOf [i]).filter (fun d => d.Hostname = h) = [] := by
  rw [registryData_single]
  have : i.Spec.Rules.filter (fun r => r.Host = h) = [] := by
    rw [List.filter_eq_nil_iff]
    intro r hr
    simpa using hno r hr
  simp [this]

theorem mem_filed (context k : String) (ingresses : List Ingress) (x : Ingress)
    (hx : x ∈ ingresses.flatMap (fun i => List.replicate (filings context k i) i)) :
    x ∈ ingresses ∧ stringsContains k context = true ∧ ∃ rule ∈ x.Spec.Rules, rule.Host = k := by
  obtain ⟨i, hi, hxi⟩ := List.mem_flatMap.mp hx
  obtain ⟨hn, rfl⟩ := List.mem_replicate.mp hxi
  refine ⟨hi, ?_, ?_⟩
  · by_contra hc
    simp [filings, hc] at hn
  · unfold filings at hn
    split at hn
    · have hne : x.Spec.Rules.filter (fun r => r.Host = k) ≠ [] := by
        intro h0; simp [h0] at hn
      obtain ⟨r, hr⟩ := List.exists_mem_of_ne_nil _ hne
      rw [List.mem_filter] at hr
      exact ⟨r, hr.1, by simpa using hr.2⟩
    · exact absurd rfl hn

theorem filed_two (context h : String) (pre mid post : List Ingress) (a b : Ingress)
    (hctx : stringsContains h context = true)
    (hothers : ∀ i ∈ pre ++ mid ++ post, ∀ rule ∈ i.Spec.Rules, rule.Host ≠ h)
    (ha : (a.Spec.Rules.filter (fun r => r.Host = h)).length = 1) :
    ∃ rest, (pre ++ a :: mid ++ b :: post).flatMap
      (fun i => List.replicate (filings context h i) i) = a :: rest ∧ ∀ x ∈ rest, x = b := by
  have hnil : ∀ l : List Ingress, (∀ i ∈ l, ∀ rule ∈ i.Spec.Rules, rule.Host ≠ h) →
      l.flatMap (fun i => List.replicate (filings context h i) i) = [] := by
    intro l hl
    rw [List.flatMap_eq_nil_iff]
    intro i hi
    have : i.Spec.Rules.filter (fun r => r.Host = h) = [] := by
      rw [List.filter_eq_nil_iff]
      intro r hr
      simpa using hl i hi r hr
    simp [filings, this]
  have hpre := hnil pre (fun i hi => hothers i (by simp [hi]))
  have hmid := hnil mid (fun i hi => hothers i (by simp [hi]))
  have hpost := hnil post (fun i hi => hothers i (by simp [hi]))
  refine ⟨List.replicate (filings context h b) b, ?_, ?_⟩
  · have hfa : filings context h a = 1 := by simp [filings, hctx, ha]
    simp only [List.flatMap_append, List.flatMap_cons, hpre, hmid, hpost, hfa,
      List.replicate_one, List.nil_append, List.append_nil, List.singleton_append,
      List.cons_append]
  · intro x hx
    exact (List.mem_replicate.mp hx).2

theorem keys_rules_contain (context : String) (ingress : Ingress) (rules : List IngressRule)
    (m : HostnameIngresses) (hm : ∀ k ∈ m.map Prod.fst, stringsContains k context = true) :
    ∀ k ∈ (rules.foldl (fileRule context ingress) m).map Prod.fst,
      stringsContains k context = true := by
  induction rules generalizing m with
  | nil => simpa using hm
  | cons rule rest ih =>
    simp only [List.foldl_cons]
    apply ih
    unfold fileRule
    by_cases hc : stringsContains rule.Host context = true
    · simp only [hc, Bool.not_true, Bool.false_eq_true, if_false]
      intro k hk
      rw [keys_appendAt] at hk
      split at hk
      · exact hm k hk
      · rcases List.mem_append.mp hk with h1 | h1
        · exact hm k h1
        · rw [List.mem_singleton.mp h1]; exact hc
    · simpa [hc] using hm

theorem keys_fold_contain (context : String) (ingresses : List Ingress) (m : HostnameIngresses)
    (hm : ∀ k ∈ m.map Prod.fst, stringsContains k context = true) :
    ∀ k ∈ (ingresses.foldl
      (fun m ingress => ingress.Spec.Rules.foldl (fileRule context ingress) m) m).map Prod.fst,
      stringsContains k context = true := by
  induction ingresses generalizing m with
  | nil => simpa using hm
  | cons i rest ih =>
    simp only [List.foldl_cons]
    exact ih _ (keys_rules_contain context i _ m hm)

theorem targetsDiffer_false (l : List String) (h : targetsDiffer l = false)
    (hlen : 2 ≤ l.length) : ∀ x ∈ l, ∀ y ∈ l, x = y := by
  cases l with
  | nil => simp at hlen
  | cons first rest =>
    have hgt : (first :: rest).length > 1 := hlen
    simp only [targetsDiffer, hgt, decide_True, Bool.true_and, List.any_eq_false] at h
    intro x hx y hy
    have h1 : x = first := by simpa using h x hx
    have h2 : y = first := by simpa using h y hy
    rw [h1, h2]

end k8s

namespace route53

/-! ## The diff of `CreateRegistry` -/

theorem buildRrsetGroups_fold (r : Route53) (existing : RecordSets)
    (data : List registry.Data) (acc : List (List RrsetAction)) :
    data.foldl
      (fun rrsetGroups d =>
        let name := r.externalDNSPrefix ++ d.Hostname ++ "."
        match existing.lookup name with
        | some _ => rrsetGroups
        | none =>
          let rrsetAction : RrsetAction :=
            [({ Name := name, Type_ := "TXT", TTL := 300,
                ResourceRecords := [{ Value := heritageValue r.externalDNSOwner d }] }, "CREATE")]
          rrsetGroups ++ [[rrsetAction]])
      acc
    = acc ++ (data.filter (fun d => (existing.lookup (recordName r d)).isNone)).map
        (fun d => groupOf (createTxt r d)) := by
  induction data generalizing acc with
  | nil => simp
  | cons d rest ih =>
    simp only [List.foldl_cons]
    rw [ih]
    cases hl : existing.lookup (r.externalDNSPrefix ++ d.Hostname ++ ".") with
    | none => simp [recordName, hl, groupOf, createTxt]
    | some v => simp [recordName, hl]

theorem buildRrsetGroups_spec (r : Route53) (existing : RecordSets)
    (data : List registry.Data) :
    buildRrsetGroups r existing data =
      (data.filter (fun d => (existing.lookup (recordName r d)).isNone)).map
        (fun d => groupOf (createTxt r d)) := by
  unfold buildRrsetGroups
  rw [buildRrsetGroups_fold]
  simp

/-! ## The loop of `changeRecordSets` -/

theorem foldlM_loopBody (r : Route53) (total : Nat) (hbs : r.changeBatchSize ≠ 0)
    (groups : List (List RrsetAction)) (st : LoopState) :
    groups.foldlM (loopBody r total) st = some (groups.foldl (stepGroup r total) st) := by
  induction groups generalizing st with
  | nil => rfl
  | cons g rest ih =>
    simp only [List.foldlM_cons, List.foldl_cons, loopBody, hbs, if_false]
    exact ih _

theorem addGroup_inner (rrsets : RrsetAction) (st : LoopState) :
    let st1 := rrsets.foldl
      (fun st entry =>
        { st with
          changes := st.changes ++ [{ Action := entry.2, ResourceRecordSet := entry.1 }],
          recordHostnames := st.recordHostnames ++ [entry.1.Name] })
      st
    st1.calls = st.calls ∧ st1.failedHostnames = st.failedHostnames ∧
      st1.counter = st.counter ∧ st1.sleeps = st.sleeps := by
  induction rrsets generalizing st with
  | nil => simp
  | cons e rest ih =>
    simp only [List.foldl_cons]
    have := ih { st with
      changes := st.changes ++ [{ Action := e.2, ResourceRecordSet := e.1 }],
      recordHostnames := st.recordHostnames ++ [e.1.Name] }
    simpa using this

theorem addGroup_outer (group : List RrsetAction) (st : LoopState) :
    let st1 := group.foldl
      (fun st rrsets =>
        rrsets.foldl
          (fun st entry =>
            { st with
              changes := st.changes ++ [{ Action := entry.2, ResourceRecordSet := entry.1 }],
              recordHostnames := st.recordHostnames ++ [entry.1.Name] })
          st)
      st
    st1.calls = st.calls ∧ st1.failedHostnames = st.failedHostnames ∧
      st1.counter = st.counter ∧ st1.sleeps = st.sleeps := by
  induction group generalizing st with
  | nil => simp
  | cons m rest ih =>
    simp only [List.foldl_cons]
    have h1 := addGroup_inner m st
    have h2 := ih (m.foldl
      (fun st entry =>
        { st with
          changes := st.changes ++ [{ Action := entry.2, ResourceRecordSet := entry.1 }],
          recordHostnames := st.recordHostnames ++ [entry.1.Name] })
      st)
    simp only at h1 h2 ⊢
    refine ⟨h2.1.trans h1.1, h2.2.1.trans h1.2.1, h2.2.2.1.trans h1.2.2.1,
      h2.2.2.2.trans h1.2.2.2⟩

theorem addGroup_frame (group : List RrsetAction) (st : LoopState) :
    (addGroup st group).calls = st.calls ∧
      (addGroup st group).failedHostnames = st.failedHostnames ∧
      (addGroup st group).counter = st.counter + 1 := by
  have h := addGroup_outer group { st with counter := st.counter + 1 }
  simp only at h
  exact ⟨h.1, h.2.1, h.2.2.1⟩

theorem resetBatch_frame (r : Route53) (total : Nat) (st : LoopState) :
    (resetBatch r total st).calls = st.calls ∧
      (resetBatch r total st).failedHostnames = st.failedHostnames := by
  unfold resetBatch
  simp only
  split <;> simp

theorem stepGroup_dryRun (r : Route53) (total : Nat) (hdry : r.dryRun = true)
    (st : LoopState) (group : List RrsetAction) :
    (stepGroup r total st group).calls = st.calls ∧
      (stepGroup r total st group).failedHostnames = st.failedHostnames := by
  have ha := addGroup_frame group st
  unfold stepGroup
  simp only
  split
  · unfold flushBatch
    simp only [hdry, if_true]
    have hr := resetBatch_frame r total (addGroup st group)
    exact ⟨hr.1.trans ha.1, hr.2.trans ha.2.1⟩
  · exact ⟨ha.1, ha.2.1⟩

theorem fold_dryRun (r : Route53) (total : Nat) (hdry : r.dryRun = true)
    (groups : List (List RrsetAction)) (st : LoopState) :
    (groups.foldl (stepGroup r total) st).calls = st.calls ∧
      (groups.foldl (stepGroup r total) st).failedHostnames = st.failedHostnames := by
  induction groups generalizing st with
  | nil => simp
  | cons g rest ih =>
    simp only [List.foldl_cons]
    have h1 := stepGroup_dryRun r total hdry st g
    have h2 := ih (stepGroup r total st g)
    exact ⟨h2.1.trans h1.1, h2.2.trans h1.2⟩

theorem addGroup_groupOf (st : LoopState) (p : ResourceRecordSet × String) :
    addGroup st (groupOf p) = gathered st [p] := rfl

theorem gathered_cons (st : LoopState) (p : ResourceRecordSet × String)
    (rest : List (ResourceRecordSet × String)) :
    gathered (gathered st [p]) rest = gathered st (p :: rest) := by
  simp [gathered, Nat.add_assoc, Nat.add_comm 1]

theorem fold_chunk (r : Route53) (total : Nat) (ps : List (ResourceRecordSet × String))
    (st : LoopState) (hne : ps ≠ [])
    (hno : ∀ j, j + 1 < ps.length → ¬ due r total (st.counter + j + 1))
    (hdue : due r total (st.counter + ps.length)) :
    (ps.map groupOf).foldl (stepGroup r total) st = flushBatch r total (gathered st ps) := by
  induction ps generalizing st with
  | nil => exact absurd rfl hne
  | cons p rest ih =>
    simp only [List.map_cons, List.foldl_cons]
    by_cases hrest : rest = []
    · subst hrest
      have hd : due r total (gathered st [p]).counter := by simpa [gathered] using hdue
      simp only [List.map_nil, List.foldl_nil, stepGroup, addGroup_groupOf]
      exact if_pos hd
    · have hlen : 0 + 1 < (p :: rest).length := by
        cases rest with
        | nil => exact absurd rfl hrest
        | cons q qs => simp
      have hnd : ¬ due r total (gathered st [p]).counter := by
        have := hno 0 hlen
        simpa [gathered] using this
      have hstep : stepGroup r total st (groupOf p) = gathered st [p] := by
        simp only [stepGroup, addGroup_groupOf]
        exact if_neg hnd
      rw [hstep, ih (gathered st [p]) hrest, gathered_cons]
      · intro j hj
        have := hno (j + 1) (by simpa using hj)
        simpa [gathered, Nat.add_assoc, Nat.add_comm 1] using this
      · simpa [gathered, Nat.add_assoc, Nat.add_comm 1] using hdue

theorem due_iff (r : Route53) (b total counter : Nat) (hb : r.changeBatchSize = (b : Int)) :
    due r total counter ↔ (counter % b = 0 ∨ counter = total) := by
  unfold due
  rw [hb, ← Int.ofNat_tmod]
  have h : ((counter % b : Nat) : Int) = 0 ↔ counter % b = 0 := by omega
  rw [h]

theorem length_batchAt (b : Nat) (pending : List (ResourceRecordSet × String)) (j : Nat) :
    (batchAt b pending j).length = min b (pending.length - j * b) := by
  simp [batchAt]

theorem take_succ_batches (b : Nat) (pending : List (ResourceRecordSet × String)) (j : Nat) :
    pending.take ((j + 1) * b) = pending.take (j * b) ++ batchAt b pending j := by
  rw [Nat.succ_mul, List.take_add]
  rfl

theorem lt_batches_iff (b len j : Nat) (hb : 0 < b) :
    j < (len + b - 1) / b ↔ j * b < len := by
  rw [Nat.lt_iff_add_one_le, Nat.le_div_iff_mul_le hb, Nat.succ_mul]
  omega

/-- One batch goes through the loop: from a state at a batch boundary the groups
of batch `j` end in one flush of the gathered batch. -/
theorem fold_batch (r : Route53) (b : Nat) (pending : List (ResourceRecordSet × String))
    (j : Nat) (st : LoopState) (hb : r.changeBatchSize = (b : Int)) (hpos : 0 < b)
    (hj : j * b < pending.length) (hc : st.counter = j * b) :
    ((batchAt b pending j).map groupOf).foldl (stepGroup r pending.length) st =
      flushBatch r pending.length (gathered st (batchAt b pending j)) := by
  have hlen := length_batchAt b pending j
  apply fold_chunk
  · intro h0
    rw [h0] at hlen
    simp at hlen
    omega
  · intro i hi
    rw [due_iff r b _ _ hb, hc, hlen] at *
    have h1 : (j * b + i + 1) % b = i + 1 := by
      rw [Nat.add_assoc, Nat.mul_comm, Nat.mul_add_mod]
      exact Nat.mod_eq_of_lt (by omega)
    omega
  · rw [due_iff r b _ _ hb, hc, hlen]
    by_cases hm : b ≤ pending.length - j * b
    · left
      rw [Nat.min_eq_left hm, ← Nat.succ_mul]
      exact Nat.mul_mod_left _ _
    · right
      omega

theorem flushBatch_fail (r : Route53) (total : Nat) (st : LoopState) (e : String)
    (hdry : r.dryRun = false)
    (h : r.client.ChangeResourceRecordSets st.calls.length
      { HostedZoneId := r.zone, Changes := st.changes } = some e) :
    flushBatch r total st =
      { st with
        err := some e,
        calls := st.calls ++ [({ HostedZoneId := r.zone, Changes := st.changes }, some e)],
        failedHostnames := st.failedHostnames ++ st.recordHostnames } := by
  simp [flushBatch, hdry, h]

theorem flushBatch_ok (r : Route53) (total : Nat) (st : LoopState)
    (hdry : r.dryRun = false)
    (h : r.client.ChangeResourceRecordSets st.calls.length
      { HostedZoneId := r.zone, Changes := st.changes } = none) :
    flushBatch r total st =
      resetBatch r total
        { st with
          err := none,
          calls := st.calls ++ [({ HostedZoneId := r.zone, Changes := st.changes }, none)] } := by
  simp [flushBatch, hdry, h]

theorem resetBatch_fields (r : Route53) (total : Nat) (st : LoopState) :
    (resetBatch r total st).counter = st.counter ∧
      (resetBatch r total st).calls = st.calls ∧
      (resetBatch r total st).failedHostnames = st.failedHostnames ∧
      (resetBatch r total st).changes = [] ∧
      (resetBatch r total st).recordHostnames = [] ∧
      (resetBatch r total st).err = st.err := by
  unfold resetBatch
  simp only
  split <;> simp

theorem partialInv_step (r : Route53) (b : Nat) (pending : List (ResourceRecordSet × String))
    (k0 j : Nat) (st : LoopState) (hdry : r.dryRun = false)
    (hfail : ∀ input, (r.client.ChangeResourceRecordSets j input).isSome = true ↔ j = k0)
    (hj : j * b < pending.length) (hinv : PartialInv r b pending k0 j st) :
    PartialInv r b pending k0 (j + 1)
      (flushBatch r pending.length (gathered st (batchAt b pending j))) := by
  obtain ⟨hc, hl, hf, hch, hn, hcalls⟩ := hinv
  have hlen := length_batchAt b pending j
  have hcount : (gathered st (batchAt b pending j)).counter = min ((j + 1) * b) pending.length := by
    simp only [gathered, hc, hlen, Nat.succ_mul]
    omega
  have hidx : (gathered st (batchAt b pending j)).calls.length = j := hl
  cases hres : r.client.ChangeResourceRecordSets (gathered st (batchAt b pending j)).calls.length
      { HostedZoneId := r.zone, Changes := (gathered st (batchAt b pending j)).changes } with
  | some e =>
    have hjk : j = k0 := by
      rw [hidx] at hres
      exact (hfail _).mp (by rw [hres]; rfl)
    subst hjk
    rw [flushBatch_fail r _ _ e hdry hres]
    have hch0 : st.changes = [] := by rw [hch]; simp
    have hn0 : st.recordHostnames = [] := by rw [hn]; simp
    have hf0 : st.failedHostnames = [] := by rw [hf]; simp
    refine ⟨hcount, by simp [gathered, hl], ?_, ?_, ?_, ?_⟩
    · simp [gathered, hf0, hn0, namesOf]
    · simp [gathered, hch0]
    · simp [gathered, hn0, namesOf]
    · intro i hi hne
      have hi2 : i < st.calls.length := by rw [hl]; omega
      simp only [gathered]
      rw [List.getElem?_append_left hi2]
      exact hcalls i (by omega) hne
  | none =>
    have hjk : j ≠ k0 := by
      intro h
      have hres2 := hres
      rw [hidx] at hres2
      have := (hfail
        { HostedZoneId := r.zone, Changes := (gathered st (batchAt b pending j)).changes }).mpr h
      rw [hres2] at this
      exact Bool.noConfusion this
    rw [flushBatch_ok r _ _ hdry hres]
    obtain ⟨q1, q2, q3, r4, r5, _⟩ := resetBatch_fields r pending.length
      { gathered st (batchAt b pending j) with
        err := none,
        calls := (gathered st (batchAt b pending j)).calls ++
          [({ HostedZoneId := r.zone,
              Changes := (gathered st (batchAt b pending j)).changes }, none)] }
    generalize resetBatch r pending.length
      { gathered st (batchAt b pending j) with
        err := none,
        calls := (gathered st (batchAt b pending j)).calls ++
          [({ HostedZoneId := r.zone,
              Changes := (gathered st (batchAt b pending j)).changes }, none)] } = out
      at q1 q2 q3 r4 r5 ⊢
    have r1 : out.counter = (gathered st (batchAt b pending j)).counter := q1
    have r2 : out.calls = st.calls ++
        [({ HostedZoneId := r.zone,
            Changes := st.changes ++ (batchAt b pending j).map changeOf }, none)] := q2
    have r3 : out.failedHostnames = st.failedHostnames := q3
    refine ⟨r1.trans hcount, ?_, ?_, ?_, ?_, ?_⟩
    · rw [r2]; simp [hl]
    · rw [r3, hf]
      have h1 : (k0 < j + 1) ↔ (k0 < j) := by
        constructor <;> intro h <;> omega
      simp only [h1]
    · rw [r4]
      have : ¬ (j + 1 = k0 + 1) := by omega
      simp [this]
    · rw [r5]
      have : ¬ (j + 1 = k0 + 1) := by omega
      simp [this]
    · intro i hi hne
      rw [r2]
      by_cases hij : i < j
      · have hi2 : i < st.calls.length := by rw [hl]; exact hij
        rw [List.getElem?_append_left hi2]
        exact hcalls i hij hne
      · have hij : i = j := by omega
        subst hij
        rw [List.getElem?_append_right (by rw [hl]), hl, Nat.sub_self, hch]
        rfl

theorem partialInv_batches (r : Route53) (b : Nat) (pending : List (ResourceRecordSet × String))
    (k0 : Nat) (hb : r.changeBatchSize = (b : Int)) (hpos : 0 < b) (hdry : r.dryRun = false)
    (hfail : ∀ n input, n < (pending.length + b - 1) / b →
      ((r.client.ChangeResourceRecordSets n input).isSome = true ↔ n = k0))
    (j : Nat) (hj : j ≤ (pending.length + b - 1) / b) :
    PartialInv r b pending k0 j
      (((pending.take (j * b)).map groupOf).foldl (stepGroup r pending.length) initialState) := by
  induction j with
  | zero =>
    simp [PartialInv, initialState]
  | succ j ih =>
    have hlt : j * b < pending.length := (lt_batches_iff b pending.length j hpos).mp hj
    have hprev := ih (Nat.le_of_lt hj)
    rw [take_succ_batches, List.map_append, List.foldl_append]
    have hc : (((pending.take (j * b)).map groupOf).foldl (stepGroup r pending.length)
        initialState).counter = j * b := by
      rw [hprev.1]
      omega
    rw [fold_batch r b pending j _ hb hpos hlt hc]
    exact partialInv_step r b pending k0 j _ hdry (fun input => hfail j input hj) hlt hprev

theorem take_all_batches (b : Nat) (pending : List (ResourceRecordSet × String)) (hpos : 0 < b) :
    pending.take ((pending.length + b - 1) / b * b) = pending := by
  apply List.take_of_length_le
  by_contra hlt
  have h1 : (pending.length + b - 1) / b * b < pending.length := by omega
  have := (lt_batches_iff b pending.length _ hpos).mpr h1
  omega

theorem lookup_setAt (m : RecordSets) (name k : String) (entry : ResourceRecordSet) :
    (setAt m name entry).lookup k = if k = name then some entry else m.lookup k := by
  induction m with
  | nil =>
    by_cases hk : k = name
    · subst hk; simp [setAt, List.lookup]
    · have hb : (k == name) = false := by simpa using hk
      simp [setAt, List.lookup, hb, hk]
  | cons e rest ih =>
    obtain ⟨k0, v0⟩ := e
    by_cases h0 : k0 = name
    · subst h0
      by_cases hk : k = k0
      · subst hk; simp [setAt, List.lookup]
      · have hb : (k == k0) = false := by simpa using hk
        simp [setAt, List.lookup, hb, hk]
    · by_cases hk : k = k0
      · subst hk
        have hkn : ¬ k = name := h0
        simp [setAt, h0, List.lookup, hkn]
      · have hb : (k == k0) = false := by simpa using hk
        simp [setAt, h0, List.lookup, hb, ih]

theorem lookup_entries (entries : List ResourceRecordSet) (m : RecordSets) (k : String) :
    (entries.foldl (fun m entry => setAt m entry.Name entry) m).lookup k ≠ none ↔
      (m.lookup k ≠ none ∨ ∃ entry ∈ entries, entry.Name = k) := by
  induction entries generalizing m with
  | nil => simp
  | cons e rest ih =>
    simp only [List.foldl_cons]
    rw [ih, lookup_setAt]
    by_cases hk : k = e.Name
    · subst hk; simp
    · have hk2 : ¬ e.Name = k := fun h => hk h.symm
      simp [hk, hk2]

theorem lookup_recorded (pages : List ListResourceRecordSetsOutput) (m : RecordSets)
    (k : String) :
    (recorded m pages).lookup k ≠ none ↔
      (m.lookup k ≠ none ∨ ∃ page ∈ pages, ∃ entry ∈ page.ResourceRecordSets, entry.Name = k) := by
  induction pages generalizing m with
  | nil => simp [recorded]
  | cons p rest ih =>
    have hrec : recorded m (p :: rest) =
        recorded (p.ResourceRecordSets.foldl (fun m entry => setAt m entry.Name entry) m) rest := rfl
    rw [hrec, ih, lookup_entries]
    simp only [List.mem_cons, exists_eq_or_imp, or_assoc]

/-- What the paging with the closure of `getRecordSets` arrives at: the pages are
stored until page 31 has been stored, and the error of the listing comes back
only when at most 30 pages were delivered. -/
theorem pages_recorded (listing : Listing) (pages : List ListResourceRecordSetsOutput)
    (s : Nat × RecordSets) (hs : s.1 ≤ 30) :
    ListResourceRecordSetsPages listing recordPage pages s =
      ((s.1 + min pages.length (31 - s.1), recorded s.2 (pages.take (31 - s.1))),
        if s.1 + pages.length ≤ 30 then listing.err else none) := by
  induction pages generalizing s with
  | nil => simp [ListResourceRecordSetsPages, recorded, hs]
  | cons p rest ih =>
    obtain ⟨pageNum, rrsets⟩ := s
    simp only at hs
    have htake : (p :: rest).take (31 - pageNum) = p :: rest.take (31 - (pageNum + 1)) := by
      have : 31 - pageNum = (31 - (pageNum + 1)) + 1 := by omega
      rw [this, List.take_succ_cons]
    by_cases hmore : pageNum + 1 ≤ 30
    · simp only [ListResourceRecordSetsPages, recordPage, hmore, decide_True, if_true]
      rw [ih _ hmore, htake]
      simp only [List.length_cons]
      have h1 : pageNum + 1 + min rest.length (31 - (pageNum + 1)) =
          pageNum + min (rest.length + 1) (31 - pageNum) := by omega
      have h2 : (pageNum + 1 + rest.length ≤ 30) ↔ (pageNum + (rest.length + 1) ≤ 30) := by omega
      simp only [h1, h2]
      rfl
    · have h30 : pageNum = 30 := by omega
      subst h30
      simp [ListResourceRecordSetsPages, recordPage, recorded]

/-! ## What a run without error has submitted -/

theorem settled_step (r : Route53) (total : Nat) (st : LoopState)
    (done : List (ResourceRecordSet × String)) (p : ResourceRecordSet × String)
    (hdry : r.dryRun = false) (h : Settled total st done) :
    Settled total (stepGroup r total st (groupOf p)) (done ++ [p]) := by
  obtain ⟨h1, h2, h3, h4⟩ := h
  have hlen : (done ++ [p]).length = st.counter + 1 := by simp [h2]
  simp only [stepGroup, addGroup_groupOf]
  by_cases hd : (Int.tmod ((gathered st [p]).counter : Int) r.changeBatchSize = 0) ∨
      (gathered st [p]).counter = total
  · rw [if_pos hd]
    cases hres : r.client.ChangeResourceRecordSets (gathered st [p]).calls.length
        { HostedZoneId := r.zone, Changes := (gathered st [p]).changes } with
    | some e =>
      rw [flushBatch_fail r _ _ e hdry hres]
      refine ⟨by simp [gathered, h1, changeOf], by simp [gathered, h2], ?_, ?_⟩
      · intro hf
        simp [gathered] at hf
      · intro hf
        simp [gathered] at hf
    | none =>
      rw [flushBatch_ok r _ _ hdry hres]
      obtain ⟨q1, q2, q3, r4, r5, _⟩ := resetBatch_fields r total
        { gathered st [p] with
          err := none,
          calls := (gathered st [p]).calls ++
            [({ HostedZoneId := r.zone, Changes := (gathered st [p]).changes }, none)] }
      generalize resetBatch r total
        { gathered st [p] with
          err := none,
          calls := (gathered st [p]).calls ++
            [({ HostedZoneId := r.zone, Changes := (gathered st [p]).changes }, none)] } = out
        at q1 q2 q3 r4 r5 ⊢
      have r1 : out.counter = st.counter + 1 := q1
      have r2 : out.calls = st.calls ++
          [({ HostedZoneId := r.zone, Changes := st.changes ++ [changeOf p] }, none)] := q2
      have r3 : out.failedHostnames = st.failedHostnames := q3
      refine ⟨by rw [r4, r5]; rfl, by rw [r1, hlen], ?_, fun _ _ _ => r4⟩
      intro hf q hq
      rw [r3] at hf
      right
      rw [r2]
      rcases List.mem_append.mp hq with hq | hq
      · rcases h3 hf q hq with hin | ⟨c, hc, hnone, hin⟩
        · exact ⟨_, List.mem_append_right _ (List.mem_singleton.mpr rfl), rfl,
            List.mem_append_left _ hin⟩
        · exact ⟨c, List.mem_append_left _ hc, hnone, hin⟩
      · rw [List.mem_singleton.mp hq]
        exact ⟨_, List.mem_append_right _ (List.mem_singleton.mpr rfl), rfl,
          List.mem_append_right _ (List.mem_singleton.mpr rfl)⟩
  · rw [if_neg hd]
    refine ⟨by simp [gathered, h1, changeOf], by simp [gathered, h2], ?_, ?_⟩
    · intro hf q hq
      have hf0 : st.failedHostnames = [] := hf
      rcases List.mem_append.mp hq with hq | hq
      · rcases h3 hf0 q hq with hin | hcall
        · exact Or.inl (List.mem_append_left _ hin)
        · exact Or.inr hcall
      · rw [List.mem_singleton.mp hq]
        exact Or.inl (List.mem_append_right _ (List.mem_singleton.mpr rfl))
    · intro _ htotal _
      exfalso
      apply hd
      right
      show st.counter + [p].length = total
      rw [← htotal, hlen]
      rfl

theorem settled_fold (r : Route53) (total : Nat) (hdry : r.dryRun = false)
    (ps : List (ResourceRecordSet × String)) (st : LoopState)
    (done : List (ResourceRecordSet × String)) (h : Settled total st done) :
    Settled total ((ps.map groupOf).foldl (stepGroup r total) st) (done ++ ps) := by
  induction ps generalizing st done with
  | nil => simpa using h
  | cons p rest ih =>
    simp only [List.map_cons, List.foldl_cons]
    have := ih _ _ (settled_step r total st done p hdry h)
    simpa [List.append_assoc] using this

theorem foldlM_loopBody_zero (r : Route53) (total : Nat) (hbs : r.changeBatchSize = 0)
    (g : List RrsetAction) (groups : List (List RrsetAction)) (st : LoopState) :
    (g :: groups).foldlM (loopBody r total) st = none := by
  simp [List.foldlM_cons, loopBody, hbs]

/-- Outside a dry run, a run of `changeRecordSets` that returns no error has
handed every pending change to the service in a request that was accepted. -/
theorem changeRecordSets_accepted (r : Route53) (pending : List (ResourceRecordSet × String))
    (res : ChangeResult) (hdry : r.dryRun = false)
    (hrun : changeRecordSets r (pending.map groupOf) = some res) (hok : res.ret = none) :
    ∀ p ∈ pending, ∃ c ∈ res.calls, c.2 = none ∧ changeOf p ∈ c.1.Changes := by
  intro p hp
  have hne : pending ≠ [] := List.ne_nil_of_mem hp
  have hbs : r.changeBatchSize ≠ 0 := by
    intro h0
    cases hpd : pending with
    | nil => exact hne hpd
    | cons q qs =>
      rw [hpd] at hrun
      simp only [changeRecordSets, List.map_cons] at hrun
      rw [foldlM_loopBody_zero r _ h0] at hrun
      simp at hrun
  simp only [changeRecordSets, foldlM_loopBody r _ hbs, Option.map_some', Option.some.injEq,
    List.length_map] at hrun
  subst hrun
  have hset := settled_fold r pending.length hdry pending initialState []
    ⟨rfl, rfl, fun _ q hq => absurd hq (List.not_mem_nil q), fun _ _ h => absurd rfl h⟩
  rw [List.nil_append] at hset
  obtain ⟨_, _, h3, h4⟩ := hset
  have hf : (List.foldl (stepGroup r pending.length) initialState
      (pending.map groupOf)).failedHostnames = [] := by
    simp only [finish] at hok
    split at hok
    · exact absurd hok (by simp)
    · rename_i hlen
      exact List.length_eq_zero.mp (by omega)
  rcases h3 hf p hp with hin | hcall
  · rw [h4 hf rfl hne] at hin
    exact absurd hin (List.not_mem_nil _)
  · exact hcall

/-- Outside a dry run, a run of `CreateRegistry` that returns no error has handed
the CREATE for every binding whose record it did not find to the service in a
request that was accepted. -/
theorem CreateRegistry_accepted (r : Route53) (data : List registry.Data)
    (first : RegistryResult) (hdry : r.dryRun = false)
    (hrun : CreateRegistry r data = some first) (hok : first.ret = none) :
    ∀ d ∈ data, (getRecordSets r).1.lookup (recordName r d) = none →
      ∃ c ∈ first.calls, c.2 = none ∧ changeOf (createTxt r d) ∈ c.1.Changes := by
  intro d hd hnew
  have hgroups : buildRrsetGroups r (getRecordSets r).1 data =
      ((data.filter (fun d => ((getRecordSets r).1.lookup (recordName r d)).isNone)).map
        (createTxt r)).map groupOf := by
    rw [buildRrsetGroups_spec, List.map_map]
    rfl
  have hmem : createTxt r d ∈
      (data.filter (fun d => ((getRecordSets r).1.lookup (recordName r d)).isNone)).map
        (createTxt r) :=
    List.mem_map.mpr ⟨d, List.mem_filter.mpr ⟨hd, by simp [hnew]⟩, rfl⟩
  unfold CreateRegistry at hrun
  generalize hg : getRecordSets r = got at hrun hgroups hmem
  obtain ⟨existing, err⟩ := got
  cases err with
  | some e =>
    simp only [Option.some.injEq] at hrun
    rw [← hrun] at hok
    simp at hok
  | none =>
    simp only at hrun hgroups hmem
    rw [hgroups] at hrun
    split at hrun
    · rename_i hzero
      rw [List.length_map, List.length_eq_zero] at hzero
      rw [hzero] at hmem
      exact absurd hmem (List.not_mem_nil _)
    · cases hcr : changeRecordSets r
          (((data.filter (fun d => (existing.lookup (recordName r d)).isNone)).map
            (createTxt r)).map groupOf) with
      | none => rw [hcr] at hrun; simp at hrun
      | some res =>
        rw [hcr] at hrun
        simp only [Option.map_some', Option.some.injEq] at hrun
        subst hrun
        have hres : res.ret = none := by
          cases hr : res.ret with
          | none => rfl
          | some e => simp [hr] at hok
        exact changeRecordSets_accepted r _ res hdry hcr hres _ hmem

theorem getRecordSets_fst (r : Route53) :
    (getRecordSets r).1 = recorded [] (r.client.listing.pages.take 31) := by
  unfold getRecordSets
  rw [pages_recorded r.client.listing r.client.listing.pages (0, []) (Nat.zero_le _)]
  simp only [Nat.zero_add, Nat.sub_zero]
  split <;> rfl

theorem getRecordSets_snd (r : Route53) :
    (getRecordSets r).2 =
      if r.client.listing.pages.length ≤ 30 then r.client.listing.err else none := by
  unfold getRecordSets
  rw [pages_recorded r.client.listing r.client.listing.pages (0, []) (Nat.zero_le _)]
  simp only [Nat.zero_add]
  split <;> simp_all

theorem lookup_getRecordSets (r : Route53) (name : String) :
    (getRecordSets r).1.lookup name ≠ none ↔
      ∃ page ∈ r.client.listing.pages.take 31, ∃ entry ∈ page.ResourceRecordSets,
        entry.Name = name := by
  rw [getRecordSets_fst, lookup_recorded]
  simp

theorem mem_zoneNames (listing : Listing) (name : String) :
    name ∈ zoneNames listing ↔
      ∃ page ∈ listing.pages, ∃ entry ∈ page.ResourceRecordSets, entry.Name = name := by
  simp [zoneNames, List.mem_flatMap]

end route53

/-! ## The resolver: what holds of the bindings of `GetRegistryData` -/

/-- The first loop keeps the domain filter: every hostname that becomes a key of
the map contains the context. -/
theorem k8s.collected_hosts_contain (context : String) (ingresses : List k8s.Ingress) :
    ∀ e ∈ k8s.collectHostnameIngresses context ingresses,
      k8s.stringsContains e.1 context = true := by
  intro e he
  exact k8s.keys_fold_contain context ingresses [] (by simp) e.1
    (List.mem_map.mpr ⟨e, he, rfl⟩)

/-- The second loop detects every conflict inside an entry: when two ingresses of
the listing have a rule with host `h` (which contains the context), each reports
a routing target and they share none, the entry of `h` selects no ingress. -/
theorem k8s.conflicting_entry_dropped (context h : String)
    (pre mid post : List k8s.Ingress) (a b : k8s.Ingress)
    (hctx : k8s.stringsContains h context = true)
    (ha : ∃ rule ∈ a.Spec.Rules, rule.Host = h) (hb : ∃ rule ∈ b.Spec.Rules, rule.Host = h)
    (hta : k8s.targets a ≠ []) (htb : k8s.targets b ≠ [])
    (hdisj : ∀ t ∈ k8s.targets a, t ∉ k8s.targets b) :
    ∀ e ∈ k8s.collectHostnameIngresses context (pre ++ a :: mid ++ b :: post),
      e.1 = h → k8s.selectIngress e.2 = none := by
  intro e he heh
  have hval := k8s.entry_eq_valuesAt context _ e he
  rw [heh] at hval
  have hfil : ∀ i : k8s.Ingress, (∃ rule ∈ i.Spec.Rules, rule.Host = h) →
      ∃ n, k8s.filings context h i = n + 1 := by
    intro i ⟨rule, hr, hrh⟩
    have hne : i.Spec.Rules.filter (fun r => r.Host = h) ≠ [] := by
      intro h0
      have : rule ∈ i.Spec.Rules.filter (fun r => r.Host = h) :=
        List.mem_filter.mpr ⟨hr, by simpa using hrh⟩
      rw [h0] at this
      exact absurd this (List.not_mem_nil _)
    refine ⟨(i.Spec.Rules.filter (fun r => r.Host = h)).length - 1, ?_⟩
    have := List.length_pos.mpr hne
    simp only [k8s.filings, hctx, if_true]
    omega
  obtain ⟨na, hna⟩ := hfil a ha
  obtain ⟨nb, hnb⟩ := hfil b hb
  -- the entry holds `a` and, later, `b`
  obtain ⟨l1, l2, l3, hdec⟩ : ∃ l1 l2 l3, e.2 = l1 ++ a :: l2 ++ b :: l3 := by
    refine ⟨pre.flatMap (fun i => List.replicate (k8s.filings context h i) i),
      List.replicate na a ++ mid.flatMap (fun i => List.replicate (k8s.filings context h i) i),
      List.replicate nb b ++ post.flatMap (fun i => List.replicate (k8s.filings context h i) i),
      ?_⟩
    rw [hval]
    simp only [List.flatMap_append, List.flatMap_cons, hna, hnb, List.replicate_succ,
      List.append_assoc, List.cons_append]
  have hamem : a ∈ e.2 := by rw [hdec]; simp
  have hbmem : b ∈ e.2 := by rw [hdec]; simp
  -- a target of `a`
  obtain ⟨t, ht⟩ := List.exists_mem_of_ne_nil _ hta
  obtain ⟨tb, htbm⟩ := List.exists_mem_of_ne_nil _ htb
  have hlbA : ∃ la ∈ a.Status.LoadBalancer.Ingress, (la.IP = t ∨ la.Hostname = t) ∧ t ≠ "" := by
    simp only [k8s.targets, List.mem_filter, List.mem_flatMap] at ht
    obtain ⟨⟨la, hla, hmem⟩, hne⟩ := ht
    refine ⟨la, hla, ?_, by simpa using hne⟩
    simp only [List.mem_cons, List.mem_singleton, List.not_mem_nil, or_false] at hmem
    rcases hmem with h1 | h1
    · exact Or.inl h1.symm
    · exact Or.inr h1.symm
  have hlbB : ∃ lb, lb ∈ b.Status.LoadBalancer.Ingress := by
    simp only [k8s.targets, List.mem_filter, List.mem_flatMap] at htbm
    obtain ⟨⟨lb, hlb, _⟩, _⟩ := htbm
    exact ⟨lb, hlb⟩
  obtain ⟨la, hla, hlat, htne⟩ := hlbA
  obtain ⟨lb, hlb⟩ := hlbB
  -- the collected lists have at least two elements
  have hlen : ∀ f : k8s.LoadBalancerIngress → String,
      2 ≤ (e.2.flatMap (fun i => i.Status.LoadBalancer.Ingress.map f)).length := by
    intro f
    rw [hdec]
    simp only [List.flatMap_append, List.flatMap_cons, List.length_append, List.length_map]
    have h1 := List.length_pos_of_mem hla
    have h2 := List.length_pos_of_mem hlb
    omega
  have hin : ∀ (f : k8s.LoadBalancerIngress → String) (i : k8s.Ingress)
      (l : k8s.LoadBalancerIngress), i ∈ e.2 → l ∈ i.Status.LoadBalancer.Ingress →
      f l ∈ e.2.flatMap (fun i => i.Status.LoadBalancer.Ingress.map f) := by
    intro f i l hi hl
    exact List.mem_flatMap.mpr ⟨i, hi, List.mem_map.mpr ⟨l, hl, rfl⟩⟩
  have helen : e.2.length > 1 := by
    rw [hdec]
    simp only [List.length_append, List.length_cons]
    omega
  cases hcase : e.2 with
  | nil => rw [hcase] at helen; simp at helen
  | cons first rest =>
    rw [hcase] at helen
    simp only [k8s.selectIngress, helen, if_true]
    rw [← hcase]
    by_contra hsel
    have hboth : (k8s.targetsDiffer (e.2.flatMap
          (fun i => i.Status.LoadBalancer.Ingress.map (fun lb => lb.Hostname))) ||
        k8s.targetsDiffer (e.2.flatMap
          (fun i => i.Status.LoadBalancer.Ingress.map (fun lb => lb.IP)))) = false := by
      cases hv : (k8s.targetsDiffer (e.2.flatMap
          (fun i => i.Status.LoadBalancer.Ingress.map (fun lb => lb.Hostname))) ||
        k8s.targetsDiffer (e.2.flatMap
          (fun i => i.Status.LoadBalancer.Ingress.map (fun lb => lb.IP)))) with
      | false => rfl
      | true => rw [hv] at hsel; simp at hsel
    rw [Bool.or_eq_false_iff] at hboth
    have hH := k8s.targetsDiffer_false _ hboth.1 (hlen (fun lb => lb.Hostname))
      (la.Hostname) (hin (fun lb => lb.Hostname) a la hamem hla)
      (lb.Hostname) (hin (fun lb => lb.Hostname) b lb hbmem hlb)
    have hI := k8s.targetsDiffer_false _ hboth.2 (hlen (fun lb => lb.IP))
      (la.IP) (hin (fun lb => lb.IP) a la hamem hla)
      (lb.IP) (hin (fun lb => lb.IP) b lb hbmem hlb)
    apply hdisj t ht
    simp only [k8s.targets, List.mem_filter, List.mem_flatMap]
    refine ⟨⟨lb, hlb, ?_⟩, by simpa using htne⟩
    rcases hlat with h1 | h1
    · rw [← h1, hI]; simp
    · rw [← h1, hH]; simp

/-- C1, at `conflictingIngresses` with context `example.com`: the two ingresses
share the host `foo.example.com` and their addresses differ, yet in either order
of the map the bindings hold `foo.example.com`, under the ingress selected for
`bar.example.com`. -/
theorem k8s.conflicting_host_bound :
    k8s.conflictingIngresses.map k8s.targets = [["1.1.1.1"], ["2.2.2.2"]] ∧
    k8s.GetRegistryData "example.com" id (.ok k8s.conflictingIngresses) =
      ([⟨"a", "ns1", "foo.example.com"⟩, ⟨"a", "ns1", "bar.example.com"⟩], none) ∧
    k8s.GetRegistryData "example.com" List.reverse (.ok k8s.conflictingIngresses) =
      ([⟨"a", "ns1", "foo.example.com"⟩, ⟨"a", "ns1", "bar.example.com"⟩], none) ∧
    k8s.collectHostnameIngresses "example.com" k8s.conflictingIngresses =
      [("foo.example.com", k8s.conflictingIngresses),
       ("bar.example.com", k8s.conflictingIngresses.take 1)] ∧
    k8s.selectIngress k8s.conflictingIngresses = none := by
  decide

/-- C2, at `mixedDomainIngresses` with context `example.com`: the host
`bar.other.org` does not contain the context and is passed over by the first
loop, yet the bindings hold it. -/
theorem k8s.foreign_host_bound :
    k8s.stringsContains "bar.other.org" "example.com" = false ∧
    k8s.collectHostnameIngresses "example.com" k8s.mixedDomainIngresses =
      [("foo.example.com", k8s.mixedDomainIngresses)] ∧
    k8s.GetRegistryData "example.com" id (.ok k8s.mixedDomainIngresses) =
      ([⟨"a", "ns1", "foo.example.com"⟩, ⟨"a", "ns1", "bar.other.org"⟩], none) := by
  decide

/-- C3 fails as stated, at `twoAddressIngresses` with context `example.com`: the
two ingresses report identical targets, two addresses each, and the host is
dropped. -/
theorem k8s.identical_targets_dropped :
    (k8s.twoAddressIngresses.map (fun i => i.Status)).Pairwise (fun s t => s = t) ∧
    k8s.collectHostnameIngresses "example.com" k8s.twoAddressIngresses =
      [("foo.example.com", k8s.twoAddressIngresses)] ∧
    k8s.GetRegistryData "example.com" id (.ok k8s.twoAddressIngresses) = ([], none) := by
  decide

/-- C3 (amended): when exactly two ingresses of the listing, `a` before `b`, have a
rule with host `h` (which contains the context), `a` has exactly one such rule,
neither of the two has another rule whose host contains the context, and every
load-balancer entry of the two carries one and the same IP and one and the same
hostname, then whatever the order in which the map is visited the bindings of
`GetRegistryData` hold exactly one `registry.Data` with hostname `h`, and it has
the name and namespace of `a`, the first encountered. -/
theorem k8s.consistent_duplicate_collapse (context : String)
    (visit : k8s.HostnameIngresses → k8s.HostnameIngresses)
    (hvisit : ∀ m, (visit m).Perm m)
    (pre mid post : List k8s.Ingress) (a b : k8s.Ingress) (h ip hn : String)
    (hctx : k8s.stringsContains h context = true)
    (hothers : ∀ i ∈ pre ++ mid ++ post, ∀ rule ∈ i.Spec.Rules, rule.Host ≠ h)
    (ha : (a.Spec.Rules.filter (fun r => r.Host = h)).length = 1)
    (hb : ∃ rule ∈ b.Spec.Rules, rule.Host = h)
    (haOnly : ∀ rule ∈ a.Spec.Rules, rule.Host ≠ h → k8s.stringsContains rule.Host context = false)
    (hbOnly : ∀ rule ∈ b.Spec.Rules, rule.Host ≠ h → k8s.stringsContains rule.Host context = false)
    (htargets : ∀ lb ∈ a.Status.LoadBalancer.Ingress ++ b.Status.LoadBalancer.Ingress,
      lb.IP = ip ∧ lb.Hostname = hn) :
    (k8s.GetRegistryData context visit (.ok (pre ++ a :: mid ++ b :: post))).1.filter
        (fun d => d.Hostname = h)
      = [{ Name := a.Name, Namespace := a.Namespace, Hostname := h }] := by
  have _ := hb
  obtain ⟨rest, hfiled, hrest⟩ :=
    k8s.filed_two context h pre mid post a b hctx hothers ha
  set ingresses := pre ++ a :: mid ++ b :: post with hing
  set m := k8s.collectHostnameIngresses context ingresses with hm
  have hperm := hvisit m
  have hnd : ((visit m).map Prod.fst).Nodup :=
    (hperm.map Prod.fst).nodup_iff.mpr (k8s.nodup_keys_collect context ingresses)
  -- the entry under `h`
  have hval : k8s.valuesAt m h = a :: rest := by
    rw [hm, k8s.valuesAt_collect, hfiled]
  have hlook : m.lookup h = some (a :: rest) := by
    unfold k8s.valuesAt at hval
    cases hl : m.lookup h with
    | none => rw [hl] at hval; simp at hval
    | some v => rw [hl] at hval; simpa using hval
  have hmem : (h, a :: rest) ∈ visit m :=
    hperm.mem_iff.mpr (lookup_some_mem m h _ hlook)
  have hsel : k8s.selectIngress (a :: rest) = some a := by
    apply k8s.selectIngress_consistent a rest ip hn
    intro i hi lb hlb
    rcases List.mem_cons.mp hi with rfl | hi
    · exact htargets lb (List.mem_append_left _ hlb)
    · rw [hrest i hi] at hlb
      exact htargets lb (List.mem_append_right _ hlb)
  -- every other entry contributes nothing
  have hzero : ∀ e ∈ visit m, e.1 ≠ (h, a :: rest).1 → k8s.bindingsFor h e = [] := by
    intro e he hne
    have hne : e.1 ≠ h := hne
    unfold k8s.bindingsFor
    cases hs : k8s.selectIngress e.2 with
    | none => rfl
    | some x =>
      simp only
      apply k8s.registryData_none
      intro rule hrule hhost
      have hxe : x ∈ e.2 := k8s.selectIngress_mem _ _ hs
      rw [k8s.entry_eq_valuesAt context ingresses e (hperm.mem_iff.mp he)] at hxe
      obtain ⟨hxin, hc, r, hr, hrk⟩ := k8s.mem_filed context e.1 ingresses x hxe
      have hrne : r.Host ≠ h := by rw [hrk]; exact hne
      have hcr : k8s.stringsContains r.Host context = true := by rw [hrk]; exact hc
      have hx : x = a ∨ x = b ∨ x ∈ pre ++ mid ++ post := by
        rw [hing] at hxin
        simp only [List.mem_append, List.mem_cons] at hxin ⊢
        tauto
      rcases hx with rfl | rfl | hx
      · rw [haOnly r hr hrne] at hcr; exact Bool.noConfusion hcr
      · rw [hbOnly r hr hrne] at hcr; exact Bool.noConfusion hcr
      · exact hothers x hx rule hrule hhost
  show (k8s.registryDataOf ((visit m).filterMap (fun entry => k8s.selectIngress entry.2))).filter
      (fun d => d.Hostname = h) = _
  rw [k8s.filter_registryData, flatMap_single_key (visit m) (h, a :: rest) _ hnd hmem hzero]
  simp only [k8s.bindingsFor, hsel, k8s.registryData_single, ha, List.replicate_one]

/-- C3 (amended) at a listing of three ingresses, the map visited in reverse. -/
theorem k8s.consistent_duplicate_collapse_witness :
    (k8s.GetRegistryData "example.com" List.reverse
      (.ok ([k8s.mkIngress "p" "ns0" ["p.example.com"] [("9.9.9.9", "")]] ++
        k8s.mkIngress "a" "ns1" ["foo.example.com", "foo.other.org"] [("1.1.1.1", "")] :: [] ++
        k8s.mkIngress "b" "ns2" ["foo.example.com"] [("1.1.1.1", "")] :: []))).1.filter
        (fun d => d.Hostname = "foo.example.com")
      = [{ Name := "a", Namespace := "ns1", Hostname := "foo.example.com" }] :=
  k8s.consistent_duplicate_collapse "example.com" List.reverse (fun m => List.reverse_perm m)
    [k8s.mkIngress "p" "ns0" ["p.example.com"] [("9.9.9.9", "")]] [] []
    (k8s.mkIngress "a" "ns1" ["foo.example.com", "foo.other.org"] [("1.1.1.1", "")])
    (k8s.mkIngress "b" "ns2" ["foo.example.com"] [("1.1.1.1", "")])
    "foo.example.com" "1.1.1.1" ""
    (by decide) (by decide) (by decide) (by decide) (by decide) (by decide) (by decide)

/-! ## The registry: diff, batches and listing -/

/-- C4: the groups `CreateRegistry` builds are, in the order of the bindings, one
group holding one CREATE of a TXT record (TTL 300) named prefix + hostname + "."
for each binding whose name is not a key of the existing record sets; no record
name in them is a key of the existing record sets. -/
theorem route53.buildRrsetGroups_diff (r : route53.Route53) (existing : route53.RecordSets)
    (data : List registry.Data) :
    route53.buildRrsetGroups r existing data =
      (data.filter
        (fun d => (existing.lookup (r.externalDNSPrefix ++ d.Hostname ++ ".")).isNone)).map
        (fun d => [[({ Name := r.externalDNSPrefix ++ d.Hostname ++ ".", Type_ := "TXT", TTL := 300,
                       ResourceRecords := [{ Value := route53.heritageValue r.externalDNSOwner d }] },
                     "CREATE")]])
    ∧ ∀ group ∈ route53.buildRrsetGroups r existing data, ∀ rrsets ∈ group, ∀ entry ∈ rrsets,
        entry.2 = "CREATE" ∧ entry.1.Type_ = "TXT" ∧ existing.lookup entry.1.Name = none := by
  constructor
  · rw [route53.buildRrsetGroups_spec]
    rfl
  · intro group hg rrsets hr entry he
    rw [route53.buildRrsetGroups_spec] at hg
    obtain ⟨d, hd, rfl⟩ := List.mem_map.mp hg
    simp only [route53.groupOf, List.mem_singleton] at hr
    subst hr
    simp only [List.mem_singleton] at he
    subst he
    rw [List.mem_filter] at hd
    refine ⟨rfl, rfl, ?_⟩
    simpa [route53.createTxt] using hd.2

/-- When no mutation call fails (and the run is not a dry run, the batch size
positive) the requests of `changeRecordSets` are the batches of the pending
changes, one request each, and no error is returned. -/
theorem route53.changeRecordSets_all_accepted (r : route53.Route53)
    (pending : List (route53.ResourceRecordSet × String))
    (hbs : 0 < r.changeBatchSize) (hdry : r.dryRun = false)
    (hok : ∀ n input, r.client.ChangeResourceRecordSets n input = none) :
    ∃ res, route53.changeRecordSets r (pending.map route53.groupOf) = some res ∧
      res.ret = none ∧
      res.calls.length = (pending.length + r.changeBatchSize.toNat - 1) / r.changeBatchSize.toNat ∧
      ∀ j, j < res.calls.length →
        res.calls[j]? = some
          ({ HostedZoneId := r.zone,
             Changes :=
               (route53.batchAt r.changeBatchSize.toNat pending j).map route53.changeOf }, none) := by
  have hne : r.changeBatchSize ≠ 0 := ne_of_gt hbs
  have hb : r.changeBatchSize = ((r.changeBatchSize.toNat : Nat) : Int) :=
    (Int.toNat_of_nonneg (le_of_lt hbs)).symm
  have hpos : 0 < r.changeBatchSize.toNat := by omega
  generalize r.changeBatchSize.toNat = b at hb hpos ⊢
  have hinv := route53.partialInv_batches r b pending ((pending.length + b - 1) / b) hb hpos hdry
    (fun n input hn => by rw [hok]; simp; omega) ((pending.length + b - 1) / b) (Nat.le_refl _)
  rw [route53.take_all_batches b pending hpos] at hinv
  obtain ⟨_, hl, hf, _, _, hcalls⟩ := hinv
  rw [if_neg (Nat.lt_irrefl _)] at hf
  refine ⟨route53.finish (List.foldl (route53.stepGroup r pending.length) route53.initialState
    (pending.map route53.groupOf)), ?_, ?_, hl, ?_⟩
  · simp [route53.changeRecordSets, route53.foldlM_loopBody r _ hne]
  · simp [route53.finish, hf]
  · intro j hj
    have hj2 : j < (pending.length + b - 1) / b := by
      rw [← hl]; exact hj
    have := hcalls j hj2 (by omega)
    rw [if_neg (by omega)] at this
    simpa [route53.finish] using this

/-- C5, with batch size 2, three pending changes and a mutation call that fails
the first time only: the second request carries three changes, the first two of
them for the second time. -/
theorem route53.request_exceeds_batch_size :
    (route53.changeRecordSets (route53.mkRoute53 false 2 (route53.clientFailingAt [0]))
      ([route53.pendingTxt "a.", route53.pendingTxt "b.", route53.pendingTxt "c."].map
        route53.groupOf)).map
      (fun res => res.calls.map (fun c => c.1.Changes.map (fun ch => ch.ResourceRecordSet.Name)))
    = some [["a.", "b."], ["a.", "b.", "c."]] := by
  decide

/-- When the mutation call fails at invocation number `k` and at no other,
whatever the request (batch size positive, no dry run), `changeRecordSets` makes
one call for every batch; each call other than call `k` is accepted and carries
the changes of its batch, the call after the failed one with the changes of
batch `k` in front of its own; and the error returned lists the record names of
batch `k`. -/
theorem route53.changeRecordSets_one_call_failing (r : route53.Route53)
    (pending : List (route53.ResourceRecordSet × String)) (k : Nat)
    (hbs : 0 < r.changeBatchSize) (hdry : r.dryRun = false)
    (hk : 1 ≤ k)
    (hkn : k ≤ (pending.length + r.changeBatchSize.toNat - 1) / r.changeBatchSize.toNat)
    (hfail : ∀ n input, (r.client.ChangeResourceRecordSets n input).isSome = true ↔ n + 1 = k) :
    ∃ res, route53.changeRecordSets r (pending.map route53.groupOf) = some res ∧
      res.calls.length = (pending.length + r.changeBatchSize.toNat - 1) / r.changeBatchSize.toNat ∧
      (∀ j, j < res.calls.length → j + 1 ≠ k →
        res.calls[j]? = some
          ({ HostedZoneId := r.zone,
             Changes :=
               (if j = k then
                  (route53.batchAt r.changeBatchSize.toNat pending (k - 1)).map route53.changeOf
                else []) ++
               (route53.batchAt r.changeBatchSize.toNat pending j).map route53.changeOf }, none)) ∧
      ∃ e, res.ret = some
        { failedHostnames :=
            (route53.batchAt r.changeBatchSize.toNat pending (k - 1)).map (fun p => p.1.Name),
          err := e } := by
  have hne : r.changeBatchSize ≠ 0 := ne_of_gt hbs
  have hb : r.changeBatchSize = ((r.changeBatchSize.toNat : Nat) : Int) :=
    (Int.toNat_of_nonneg (le_of_lt hbs)).symm
  have hpos : 0 < r.changeBatchSize.toNat := by omega
  generalize r.changeBatchSize.toNat = b at hb hpos hkn ⊢
  have hfail0 : ∀ n input,
      (r.client.ChangeResourceRecordSets n input).isSome = true ↔ n = k - 1 := by
    intro n input
    rw [hfail]
    omega
  have hinv := route53.partialInv_batches r b pending (k - 1) hb hpos hdry
    (fun n input _ => hfail0 n input) ((pending.length + b - 1) / b) (Nat.le_refl _)
  rw [route53.take_all_batches b pending hpos] at hinv
  obtain ⟨_, hl, hf, _, _, hcalls⟩ := hinv
  have hklt : k - 1 < (pending.length + b - 1) / b := by omega
  have hfailed : (List.foldl (route53.stepGroup r pending.length) route53.initialState
      (pending.map route53.groupOf)).failedHostnames
        = route53.namesOf (route53.batchAt b pending (k - 1)) := by
    rw [hf, if_pos hklt]
  have hnonempty : 0 < (route53.namesOf (route53.batchAt b pending (k - 1))).length := by
    have h1 := (route53.lt_batches_iff b pending.length (k - 1) hpos).mp hklt
    simp only [route53.namesOf, List.length_map, route53.length_batchAt]
    omega
  refine ⟨route53.finish (List.foldl (route53.stepGroup r pending.length) route53.initialState
    (pending.map route53.groupOf)), ?_, ?_, ?_, ?_⟩
  · simp [route53.changeRecordSets, route53.foldlM_loopBody r _ hne]
  · exact hl
  · intro j hj hjk
    have hj2 : j < (pending.length + b - 1) / b := by
      rw [← hl]; exact hj
    have := hcalls j hj2 (by omega)
    have hiff : (j = k - 1 + 1) ↔ (j = k) := by omega
    simp only [hiff] at this
    exact this
  · refine ⟨(List.foldl (route53.stepGroup r pending.length) route53.initialState
      (pending.map route53.groupOf)).err, ?_⟩
    simp only [route53.finish, hfailed]
    rw [if_pos (by simpa using hnonempty)]
    rfl

/-- C6, with batch size 2, five pending changes (batches `a. b.`, `c. d.`, `e.`)
and a mutation call that rejects every request holding `c.`, so that of the three
batches it fails for batch 2 only: the third request is `c. d. e.` and not batch
3, it is rejected, `e.` is never submitted on its own, and the error lists
`c. d. c. d. e.` instead of the names of batch 2. -/
theorem route53.failed_batch_spoils_next :
    ([["a.", "b."], ["c.", "d."], ["e."]].map (fun batch =>
        ((route53.clientRejecting "c.").ChangeResourceRecordSets 0
          { HostedZoneId := "Z1",
            Changes := batch.map (fun n => route53.changeOf (route53.pendingTxt n)) }).isSome))
      = [false, true, false] ∧
    (route53.changeRecordSets (route53.mkRoute53 false 2 (route53.clientRejecting "c."))
      ((["a.", "b.", "c.", "d.", "e."].map route53.pendingTxt).map route53.groupOf)).map
      (fun res =>
        (res.calls.map (fun c => (c.1.Changes.map (fun ch => ch.ResourceRecordSet.Name), c.2)),
         res.ret))
    = some ([(["a.", "b."], none), (["c.", "d."], some "invalid"),
             (["c.", "d.", "e."], some "invalid")],
        some { failedHostnames := ["c.", "d.", "c.", "d.", "e."], err := some "invalid" }) := by
  decide

/-- C7, with batch size 1, two pending changes and a mutation call that fails the
first time only: `a.` is in the accepted second request and is reported as
failed. -/
theorem route53.failed_name_resubmitted :
    (route53.changeRecordSets (route53.mkRoute53 false 1 (route53.clientFailingAt [0]))
      ([route53.pendingTxt "a.", route53.pendingTxt "b."].map route53.groupOf)).map
      (fun res =>
        (res.calls.map (fun c => (c.1.Changes.map (fun ch => ch.ResourceRecordSet.Name), c.2)),
         res.ret))
    = some ([(["a."], some "throttled"), (["a.", "b."], none)],
        some { failedHostnames := ["a."], err := none }) := by
  decide

/-- C8: in a dry run with a positive batch size `changeRecordSets` never calls
`ChangeResourceRecordSets` and returns no error, whatever the groups, the
interval and the client. -/
theorem route53.changeRecordSets_dryRun (r : route53.Route53)
    (rrsetGroups : List (List route53.RrsetAction))
    (hbs : 0 < r.changeBatchSize) (hdry : r.dryRun = true) :
    ∃ res, route53.changeRecordSets r rrsetGroups = some res ∧ res.calls = [] ∧ res.ret = none := by
  have hne : r.changeBatchSize ≠ 0 := ne_of_gt hbs
  have hfold := route53.fold_dryRun r rrsetGroups.length hdry rrsetGroups route53.initialState
  refine ⟨route53.finish (rrsetGroups.foldl (route53.stepGroup r rrsetGroups.length)
    route53.initialState), ?_, ?_, ?_⟩
  · simp [route53.changeRecordSets, route53.foldlM_loopBody r _ hne]
  · simpa [route53.finish, route53.initialState] using hfold.1
  · have hf : (rrsetGroups.foldl (route53.stepGroup r rrsetGroups.length)
        route53.initialState).failedHostnames = [] := hfold.2
    simp [route53.finish, hf]

/-- C8 at a dry run with batch size 2 over three pending changes. -/
theorem route53.changeRecordSets_dryRun_witness :
    ∃ res, route53.changeRecordSets (route53.mkRoute53 true 2 (route53.clientFailingAt [0]))
      ([route53.pendingTxt "a.", route53.pendingTxt "b.", route53.pendingTxt "c."].map
        route53.groupOf) = some res ∧ res.calls = [] ∧ res.ret = none :=
  route53.changeRecordSets_dryRun (route53.mkRoute53 true 2 (route53.clientFailingAt [0])) _
    (by decide) rfl

/-- C9 fails as stated, at a zone of 31 pages and one binding whose record sorts
after them: the first run finds no record of the binding, its CREATE is accepted
and the run ends without error; the zone afterwards (`longListing`, 32 pages)
holds every earlier record and the created one, on page 32; the second run with
the same binding stops listing after page 31, builds the same pending change and
submits the CREATE again. -/
theorem route53.late_record_created_twice :
    (route53.CreateRegistry (route53.mkRoute53 false 50 route53.clientBeforeLate)
        [⟨"a", "ns1", route53.lateHostname⟩]).map
      (fun res =>
        (res.calls.map (fun c => (c.1.Changes.map (fun ch => ch.ResourceRecordSet.Name), c.2)),
         res.ret))
      = some ([([route53.longListingName 31], none)], none) ∧
    (∀ name ∈ route53.zoneNames route53.clientBeforeLate.listing,
      name ∈ route53.zoneNames route53.clientAfterLate.listing) ∧
    route53.longListingName 31 ∈ route53.zoneNames route53.clientAfterLate.listing ∧
    route53.clientAfterLate.listing.err = none ∧
    route53.buildRrsetGroups (route53.mkRoute53 false 50 route53.clientAfterLate)
      (route53.getRecordSets (route53.mkRoute53 false 50 route53.clientAfterLate)).1
      [⟨"a", "ns1", route53.lateHostname⟩] ≠ [] ∧
    (route53.CreateRegistry (route53.mkRoute53 false 50 route53.clientAfterLate)
        [⟨"a", "ns1", route53.lateHostname⟩]).map
      (fun res =>
        (res.calls.map (fun c => (c.1.Changes.map (fun ch => ch.ResourceRecordSet.Name), c.2)),
         res.ret))
      = some ([([route53.longListingName 31], none)], none) := by
  refine ⟨by decide, by decide, by decide, by decide, by decide, by decide⟩

/-- C9 (amended): when a first run of `CreateRegistry`, not a dry run, has ended
without error, the zone afterwards lists every record name it listed before and
every record name of a request the first run got accepted, and the listing of
that zone ends without error within 31 pages, then a second run with the same
bindings, prefix and owner over that zone builds no pending change and ends with
no error and no mutation call. -/
theorem route53.CreateRegistry_idempotent (r : route53.Route53) (second : route53.Client)
    (data : List registry.Data) (first : route53.RegistryResult)
    (hdry : r.dryRun = false)
    (hrun : route53.CreateRegistry r data = some first) (hok : first.ret = none)
    (hkept : ∀ name ∈ route53.zoneNames r.client.listing,
      name ∈ route53.zoneNames second.listing)
    (hcreated : ∀ c ∈ first.calls, c.2 = none → ∀ ch ∈ c.1.Changes,
      ch.ResourceRecordSet.Name ∈ route53.zoneNames second.listing)
    (hlist : second.listing.err = none) (hpages : second.listing.pages.length ≤ 31) :
    route53.buildRrsetGroups { r with client := second }
        (route53.getRecordSets { r with client := second }).1 data = [] ∧
      route53.CreateRegistry { r with client := second } data =
        some { calls := [], sleeps := [], ret := none } := by
  have hzone : ∀ d ∈ data, route53.recordName r d ∈ route53.zoneNames second.listing := by
    intro d hd
    cases hl : (route53.getRecordSets r).1.lookup (route53.recordName r d) with
    | none =>
      obtain ⟨c, hc, hnone, hin⟩ := route53.CreateRegistry_accepted r data first hdry hrun hok d hd hl
      exact hcreated c hc hnone _ hin
    | some v =>
      have hfound : (route53.getRecordSets r).1.lookup (route53.recordName r d) ≠ none := by
        rw [hl]; simp
      rw [route53.lookup_getRecordSets] at hfound
      obtain ⟨page, hp, entry, he, hn⟩ := hfound
      apply hkept
      rw [route53.mem_zoneNames]
      exact ⟨page, List.mem_of_mem_take hp, entry, he, hn⟩
  have hseen : ∀ d ∈ data, (route53.getRecordSets { r with client := second }).1.lookup
      (route53.recordName r d) ≠ none := by
    intro d hd
    rw [route53.lookup_getRecordSets]
    have hz := (route53.mem_zoneNames second.listing _).mp (hzone d hd)
    have htake : second.listing.pages.take 31 = second.listing.pages :=
      List.take_of_length_le hpages
    show ∃ page ∈ second.listing.pages.take 31, _
    rw [htake]
    exact hz
  have hnone : route53.buildRrsetGroups { r with client := second }
      (route53.getRecordSets { r with client := second }).1 data = [] := by
    rw [route53.buildRrsetGroups_spec, List.map_eq_nil_iff, List.filter_eq_nil_iff]
    intro d hd hnew
    have hname : route53.recordName { r with client := second } d = route53.recordName r d := rfl
    rw [hname] at hnew
    cases h2 : (route53.getRecordSets { r with client := second }).1.lookup
        (route53.recordName r d) with
    | none => exact hseen d hd h2
    | some w => rw [h2] at hnew; simp at hnew
  have herr : (route53.getRecordSets { r with client := second }).2 = none := by
    rw [route53.getRecordSets_snd]
    show (if second.listing.pages.length ≤ 30 then second.listing.err else none) = none
    rw [hlist]
    split <;> rfl
  refine ⟨hnone, ?_⟩
  unfold route53.CreateRegistry
  generalize hg : route53.getRecordSets { r with client := second } = got at herr hnone
  obtain ⟨existing, err⟩ := got
  simp only at herr hnone
  subst herr
  simp [hnone]

/-- C9 (amended) at a zone that lists `bar.example.com.` and two bindings: the
first run creates `foo.example.com.`, the zone afterwards lists both records on
two pages, and the second run does nothing. -/
theorem route53.CreateRegistry_idempotent_witness :
    route53.buildRrsetGroups
        { route53.mkRoute53 false 50
            (route53.clientListing [[route53.zoneRecord "bar.example.com."]]) with
          client := route53.clientListing
            [[route53.zoneRecord "bar.example.com."], [route53.zoneRecord "foo.example.com."]] }
        (route53.getRecordSets
          { route53.mkRoute53 false 50
              (route53.clientListing [[route53.zoneRecord "bar.example.com."]]) with
            client := route53.clientListing
              [[route53.zoneRecord "bar.example.com."],
               [route53.zoneRecord "foo.example.com."]] }).1
        [⟨"b", "ns1", "bar.example.com"⟩, ⟨"a", "ns1", "foo.example.com"⟩] = [] ∧
    route53.CreateRegistry
        { route53.mkRoute53 false 50
            (route53.clientListing [[route53.zoneRecord "bar.example.com."]]) with
          client := route53.clientListing
            [[route53.zoneRecord "bar.example.com."], [route53.zoneRecord "foo.example.com."]] }
        [⟨"b", "ns1", "bar.example.com"⟩, ⟨"a", "ns1", "foo.example.com"⟩]
      = some { calls := [], sleeps := [], ret := none } :=
  route53.CreateRegistry_idempotent
    (route53.mkRoute53 false 50 (route53.clientListing [[route53.zoneRecord "bar.example.com."]]))
    (route53.clientListing
      [[route53.zoneRecord "bar.example.com."], [route53.zoneRecord "foo.example.com."]])
    [⟨"b", "ns1", "bar.example.com"⟩, ⟨"a", "ns1", "foo.example.com"⟩]
    { calls := [({ HostedZoneId := "Z1",
                   Changes := [route53.changeOf (route53.createTxt
                     (route53.mkRoute53 false 50
                       (route53.clientListing [[route53.zoneRecord "bar.example.com."]]))
                     ⟨"a", "ns1", "foo.example.com"⟩)] }, none)],
      sleeps := [], ret := none }
    rfl (by decide) rfl (by decide) (by decide) rfl (by decide)

/-- C10 fails as stated, at `longListing`: 32 pages are more than the ceiling,
the listing ends without error, and the record of page 32 is missing from the
mapping returned. -/
theorem route53.long_listing_truncated :
    route53.longListing.pages.length = 32 ∧
    (route53.getRecordSets (route53.mkRoute53 false 50
      { listing := route53.longListing, ChangeResourceRecordSets := fun _ _ => none })).2 = none ∧
    (∃ page ∈ route53.longListing.pages, ∃ entry ∈ page.ResourceRecordSets,
      entry.Name = route53.longListingName 31) ∧
    (route53.getRecordSets (route53.mkRoute53 false 50
      { listing := route53.longListing, ChangeResourceRecordSets := fun _ _ => none })).1.lookup
        (route53.longListingName 31) = none := by
  decide

/-- C10 (amended): `getRecordSets` stops paging once page 31 of the listing has
been stored and does not report it: it returns an error exactly when the listing
request itself fails after at most 30 delivered pages, and the mapping it returns
holds exactly the record names of the first 31 pages (so every record name of
the zone when the listing has at most 31 pages). -/
theorem route53.getRecordSets_page_ceiling (r : route53.Route53) :
    ((route53.getRecordSets r).2 = none ↔
      (r.client.listing.err = none ∨ 30 < r.client.listing.pages.length)) ∧
    ∀ name, (route53.getRecordSets r).1.lookup name ≠ none ↔
      ∃ page ∈ r.client.listing.pages.take 31, ∃ entry ∈ page.ResourceRecordSets,
        entry.Name = name := by
  have hpages := route53.pages_recorded r.client.listing r.client.listing.pages (0, [])
    (Nat.zero_le _)
  constructor
  · unfold route53.getRecordSets
    rw [hpages]
    by_cases hlen : r.client.listing.pages.length ≤ 30
    · have h2 : ¬ 30 < r.client.listing.pages.length := by omega
      cases herr : r.client.listing.err with
      | none => simp [hlen]
      | some e => simp [hlen, herr, h2]
    · have h2 : 30 < r.client.listing.pages.length := by omega
      simp [hlen, h2]
  · intro name
    have hmap : (route53.getRecordSets r).1 =
        route53.recorded [] (r.client.listing.pages.take 31) := by
      unfold route53.getRecordSets
      rw [hpages]
      simp only [Nat.zero_add, Nat.sub_zero]
      split <;> rfl
    rw [hmap, route53.lookup_recorded]
    simp
